import Mathlib

/-
  Verification development for the LLC_Membranes post-processing toolbox.

  The Python sources are shallowly embedded in Lean:
  * Python text lines are modelled as `List Char` (one list entry per character,
    trailing newline characters included, exactly as Python's file iteration
    yields them);
  * Python floats are modelled as rationals `ℚ`; quantities produced by
    square roots / trigonometric functions are modelled in `ℝ`;
  * fallible code paths (index errors, division by zero, missing topology
    sections) are modelled with `Option` / `Except`;
  * external collaborators outside the repository boundary (numpy, mdtraj,
    pymbar, scipy, matplotlib) are modelled either by their documented
    mathematical meaning or as explicit function parameters, as marked at
    each definition.
-/

set_option maxHeartbeats 1000000
set_option maxRecDepth 4000

namespace LLC

/-! ### Text toolkit: Python fixed-width formatting and parsing primitives.

Python's `'{:wd}'.format`, `'{:w.pf}'.format`, `'{:ws}'`, `'{:>ws}'`, `'{:<wd}'`
format specifiers, the `int()` / `float()` converters and `str.strip()` are
modelled over `List Char`. -/

/-- Characters treated as whitespace by `str.strip()` (the subset that can occur
in the fixed-column files handled here). -/
def isWs (c : Char) : Bool := c = ' ' || c = '\n' || c = '\t'

/-- Numeric value of a decimal digit character. -/
def digitVal (c : Char) : ℕ := c.toNat - 48

/-- Decimal digits of `n`, most significant first, via a structural fuel
argument (`fuel ≥ n` suffices). Empty for `n = 0`. -/
def natCharsAux : ℕ → ℕ → List Char
  | 0, _ => []
  | _ + 1, 0 => []
  | fuel + 1, n + 1 => natCharsAux fuel ((n + 1) / 10) ++ [Nat.digitChar ((n + 1) % 10)]

/-- Decimal rendering of a natural number, as Python's `str`/`repr` produces it. -/
def natChars (n : ℕ) : List Char := if n = 0 then ['0'] else natCharsAux n n

/-- Decimal rendering of an integer (sign attached to the digits, as Python). -/
def intChars (z : ℤ) : List Char :=
  if z < 0 then '-' :: natChars z.natAbs else natChars z.natAbs

/-- Left-pad with `c` to width `w` (no truncation, like Python format). -/
def padLeft (w : ℕ) (c : Char) (s : List Char) : List Char :=
  List.replicate (w - s.length) c ++ s

/-- Right-pad with `c` to width `w` (no truncation, like Python format). -/
def padRight (w : ℕ) (c : Char) (s : List Char) : List Char :=
  s ++ List.replicate (w - s.length) c

/-- Python `'{:wd}'.format z` : integer right-justified in a width-`w` field. -/
def formatInt (w : ℕ) (z : ℤ) : List Char := padLeft w ' ' (intChars z)

/-- Python `'{:<wd}'.format z` : integer left-justified in a width-`w` field. -/
def formatIntLeft (w : ℕ) (z : ℤ) : List Char := padRight w ' ' (intChars z)

/-- Python `'{:ws}'.format s` : string left-justified in a width-`w` field. -/
def formatStr (w : ℕ) (s : List Char) : List Char := padRight w ' ' s

/-- Python `'{:>ws}'.format s` : string right-justified in a width-`w` field. -/
def formatStrRight (w : ℕ) (s : List Char) : List Char := padLeft w ' ' s

/-- Python `'{:w.pf}'.format q`: fixed-point rendering of `q` with `p` decimal
places right-justified to width `w`.  The value actually written is the nearest
multiple of `10^(-p)` (the exact tie-breaking rule of the underlying binary
float is immaterial to every property proved here, which only uses that the
written value is within half an ulp of the true one). -/
def formatFixed (p w : ℕ) (q : ℚ) : List Char :=
  let n : ℤ := round (q * 10 ^ p)
  let m : ℕ := n.natAbs
  let s : List Char :=
    (if n < 0 then ['-'] else []) ++ natChars (m / 10 ^ p) ++
      '.' :: padLeft p '0' (natChars (m % 10 ^ p))
  padLeft w ' ' s

/-- Python `str.strip()`. -/
def stripChars (s : List Char) : List Char :=
  ((s.dropWhile isWs).reverse.dropWhile isWs).reverse

/-- Accumulate decimal digits (value of a digit string). -/
def parseNat (s : List Char) : ℕ := s.foldl (fun a c => 10 * a + digitVal c) 0

/-- Drop a leading `'-'` or `'+'` sign character. -/
def stripSign (t : List Char) : List Char :=
  if t.headD ' ' = '-' then t.drop 1
  else if t.headD ' ' = '+' then t.drop 1
  else t

/-- Python `int()` on the decimal strings occurring in these files. -/
def parseInt (s : List Char) : ℤ :=
  if (stripChars s).headD ' ' = '-' then -(parseNat ((stripChars s).drop 1) : ℤ)
  else if (stripChars s).headD ' ' = '+' then (parseNat ((stripChars s).drop 1) : ℤ)
  else (parseNat (stripChars s) : ℤ)

/-- The integer-part digits of a stripped fixed-point decimal string. -/
def floatIntPart (s : List Char) : List Char :=
  (stripSign (stripChars s)).takeWhile (fun c => !(c = '.'))

/-- The fraction digits of a stripped fixed-point decimal string. -/
def floatFracPart (s : List Char) : List Char :=
  ((stripSign (stripChars s)).dropWhile (fun c => !(c = '.'))).drop 1

/-- Python `float()` on the fixed-point decimal strings occurring in these
files (no exponent notation is ever present in them). -/
def parseFloat (s : List Char) : ℚ :=
  (if (stripChars s).headD ' ' = '-' then (-1 : ℚ) else 1) *
    ((parseNat (floatIntPart s) : ℚ) +
      (parseNat (floatFracPart s) : ℚ) / 10 ^ (floatFracPart s).length)

/-- Python slice `s[i:j]` on characters. -/
def pySlice (s : List Char) (i j : ℕ) : List Char := (s.drop i).take (j - i)

/-- Python slice `s[i:]` on characters. -/
def pySliceFrom (s : List Char) (i : ℕ) : List Char := s.drop i

/-- `sub.count(..) ≥ 1` i.e. substring containment test used by the topology
section search (`line.count('[ atoms ]')` etc.). -/
def containsSub (s pat : List Char) : Bool := decide (pat <:+: s)

/-! ### eclipse.py : ring-stacking overlap geometry -/

/-- eclipse.py lines 37-41: orientation test.  Points are `(x, y)` pairs. -/
def ccw (A B C : ℚ × ℚ) : Bool :=
  decide ((C.2 - A.2) * (B.1 - A.1) > (B.2 - A.2) * (C.1 - A.1))

/-- eclipse.py lines 44-49: segment-intersection predicate. -/
def intersect (A B C D : ℚ × ℚ) : Bool :=
  (ccw A C D != ccw B C D) && (ccw A B C != ccw A B D)

/-- eclipse.py lines 52-57: slope and intercept of the line through two points.
A vertical segment makes the numpy float division produce an infinity; the
callers below branch on verticality (`pt1.x = pt2.x`) before consulting these
values, exactly where the source compares `abs(m)` against `float('inf')`. -/
def slope (p1 p2 : ℚ × ℚ) : ℚ × ℚ :=
  let m := (p1.2 - p2.2) / (p1.1 - p2.1)
  (m, p1.2 - m * p1.1)

/-- eclipse.py lines 60-87: intersection point of segments AB and CD, `none`
when the source returns `False`.  The source's `abs(m2) == float('inf')`
(resp. `m1`) test holds exactly when `C.x = D.x` (resp. `A.x = B.x`). -/
def intersection (A B C D : ℚ × ℚ) : Option (ℚ × ℚ) :=
  if intersect A B C D then
    let mb1 := slope A B
    let mb2 := slope C D
    if C.1 = D.1 then some (C.1, mb1.1 * C.1 + mb1.2)
    else if A.1 = B.1 then some (A.1, mb2.1 * A.1 + mb2.2)
    else
      let x := (mb1.2 - mb2.2) / (mb2.1 - mb1.1)
      some (x, mb1.1 * x + mb1.2)
  else none

/-- eclipse.py lines 90-115: collect the candidate vertices of the overlap
polygon of two hexagons: all pairwise edge intersections (edge `i` runs from
vertex `i-1`, cyclically, to vertex `i`), then every vertex of one shape
contained in the other, and finally discard rows equal to the origin (the
`pts[~np.all(pts == 0, axis=1)]` filter on the zero-initialised array).
`contains` stands for matplotlib's external `path.Path.contains_point`. -/
def overlap_pts (contains : List (ℚ × ℚ) → ℚ × ℚ → Bool)
    (shape1 shape2 : List (ℚ × ℚ)) : List (ℚ × ℚ) :=
  let inter := ((List.range 6).map (fun i =>
    ((List.range 6).map (fun j =>
      match intersection (shape1.getD ((i + 5) % 6) (0, 0)) (shape1.getD i (0, 0))
          (shape2.getD ((j + 5) % 6) (0, 0)) (shape2.getD j (0, 0)) with
      | some p => [p]
      | none => [])).flatten)).flatten
  let contained := ((List.range shape2.length).map (fun i =>
    (if contains shape1 (shape2.getD i (0, 0)) then [shape2.getD i (0, 0)] else []) ++
    (if contains shape2 (shape1.getD i (0, 0)) then [shape1.getD i (0, 0)] else []))).flatten
  (inter ++ contained).filter (fun p => decide (p ≠ ((0 : ℚ), (0 : ℚ))))

/-- eclipse.py lines 118-134: reorder the collected points by the convex-hull
vertex list.  `hullVertices` stands for scipy's external `ConvexHull(...).vertices`;
the source copies those rows into a zero-initialised array of the input's
shape, so unfilled rows remain at the origin. -/
def order_pts (hullVertices : List (ℚ × ℚ) → List ℕ) (pts : List (ℚ × ℚ)) :
    List (ℚ × ℚ) :=
  let idx := hullVertices pts
  idx.map (fun v => pts.getD v (0, 0)) ++
    List.replicate (pts.length - idx.length) (0, 0)

/-- numpy `np.dot` on equal-length vectors (external, modelled by its
mathematical meaning). -/
def npDot (a b : List ℚ) : ℚ := ∑ i in Finset.range a.length, a.getD i 0 * b.getD i 0

/-- numpy `np.roll(l, 1)` : rotate right by one (external, modelled by its
mathematical meaning). -/
def npRoll1 (l : List ℚ) : List ℚ := l.drop (l.length - 1) ++ l.take (l.length - 1)

/-- eclipse.py lines 137-146: shoelace polygon area. -/
def PolyArea (x y : List ℚ) : ℚ :=
  (1 / 2) * |npDot x (npRoll1 y) - npDot y (npRoll1 x)|

/-- eclipse.py lines 149-159: overlap area of two polygons.  `pts.size` of the
2-column numpy array is twice the row count, so the guard `pts.size > 4`
reads `4 < 2 * pts.length` here. -/
def overlap (hullVertices : List (ℚ × ℚ) → List ℕ)
    (contains : List (ℚ × ℚ) → ℚ × ℚ → Bool) (poly1 poly2 : List (ℚ × ℚ)) : ℚ :=
  let pts := overlap_pts contains poly1 poly2
  if 4 < 2 * pts.length then
    let po := order_pts hullVertices pts
    PolyArea (po.map Prod.fst) (po.map Prod.snd)
  else 0

/-- The cyclic shoelace sum `Σᵢ xᵢ·y_{(i+1) mod n}` named by the specification. -/
def cycSum (x y : List ℚ) : ℚ :=
  ∑ i in Finset.range x.length, x.getD i 0 * y.getD ((i + 1) % x.length) 0

/-! ### Structure_char.py : pore-to-pore distances and statistics -/

/-- numpy `np.linalg.norm` of a 2-vector (external, modelled by its
mathematical meaning). -/
noncomputable def npNorm2 (v : ℚ × ℚ) : ℝ := Real.sqrt ((v.1 : ℝ) ^ 2 + (v.2 : ℝ) ^ 2)

/-- Structure_char.py lines 62-74: the six pore-to-pore distances of frame `i`,
rows in the order the source assigns `p2ps[0..5, i]`.  `c i j` is the 2D centre
of pore `j` at frame `i` (the source indexes `p_centers[:, j, i]`). -/
noncomputable def p2p (c : ℕ → Fin 4 → ℚ × ℚ) (i : ℕ) : List ℝ :=
  [npNorm2 (c i 0 - c i 1), npNorm2 (c i 0 - c i 2), npNorm2 (c i 0 - c i 3),
   npNorm2 (c i 1 - c i 2), npNorm2 (c i 1 - c i 3), npNorm2 (c i 2 - c i 3)]

/-- The claimed Euclidean distance between two 2D points. -/
noncomputable def euclidDist (p q : ℚ × ℚ) : ℝ :=
  Real.sqrt (((p.1 : ℝ) - q.1) ^ 2 + ((p.2 : ℝ) - q.2) ^ 2)

/-- numpy row assignment `arr[i, :] = x` : an out-of-range row index raises. -/
def np_set {α : Type} (arr : List α) (i : ℕ) (x : α) : Except String (List α) :=
  if i < arr.length then .ok (arr.set i x) else .error "IndexError"

/-- Structure_char.py lines 84-91: copy every row except row `exclude` of the
six input series into the zero-initialised 5-row array `p2p_new`. -/
def exclude_loop (p2ps : List (List ℚ)) (exclude : ℕ) :
    Except String (List (List ℚ)) := do
  let st ← (List.range 6).foldlM
    (fun (st : List (List ℚ) × ℕ) i =>
      (if i ≠ exclude then do
        let arr ← np_set st.1 st.2 (p2ps.getD i [])
        pure (arr, st.2 + 1)
      else pure st : Except String (List (List ℚ) × ℕ)))
    (List.replicate 5 [], 0)
  pure st.1

/-- Python 2 `int()` : truncation toward zero. -/
def pyTrunc (q : ℚ) : ℤ := if 0 ≤ q then ⌊q⌋ else -⌊-q⌋

/-- Python `max` of a list (nonempty in every use below). -/
def listMaxQ (l : List ℚ) : ℚ := l.foldl max (l.headD 0)

/-- Python `max` of a list of naturals. -/
def listMaxN (l : List ℕ) : ℕ := l.foldl max (l.headD 0)

/-- The two pymbar timeseries routines used by `p2p_stats`
(`detectEquilibration`, `integratedAutocorrelationTime`): external
collaborators, passed in as parameters. -/
structure PymbarModel where
  detectEq : List ℚ → ℕ
  iact : List ℚ → ℚ

/-- Structure_char.py lines 94-100: the common equilibration start frame: the
maximum of the per-series `detectEquilibration` frames in `'auto'` mode
(`equil = none`), the explicit frame otherwise. -/
def p2p_equil_start (E : PymbarModel) (equil : Option ℕ) (rows : List (List ℚ)) : ℕ :=
  match equil with
  | none => listMaxN ((List.range 5).map (fun pore => E.detectEq (rows.getD pore [])))
  | some e => e

/-- Structure_char.py lines 103-108: `tau = int(max(taus))`, the truncated
maximum integrated autocorrelation time over the five post-equilibration
tails. -/
def p2p_tau (E : PymbarModel) (equil : Option ℕ) (rows : List (List ℚ)) : ℤ :=
  pyTrunc (listMaxQ ((List.range 5).map (fun i =>
    E.iact ((rows.getD i []).drop (p2p_equil_start E equil rows)))))

/-- Structure_char.py lines 77-133: bootstrap statistics of the pore-to-pore
series.  `rand` supplies the stream of `random.randrange` draws (first
component the trajectory draw, second the offset draw; values are reduced
into the half-open ranges that `randrange(0, total)` / `randrange(0, tau)`
guarantee).  Python 2 `/` on integers is floor division; a zero `tau` raises
`ZeroDivisionError` there, a negative array dimension or an empty `randrange`
range raises `ValueError`. -/
noncomputable def p2p_stats (E : PymbarModel) (rand : ℕ → ℕ × ℕ)
    (p2ps : List (List ℚ)) (exclude nboot : ℕ) (equil : Option ℕ) :
    Except String (ℚ × ℝ) :=
  match exclude_loop p2ps exclude with
  | .error e => .error e
  | .ok rows =>
    if p2p_tau E equil rows = 0 then .error "ZeroDivisionError"
    else if p2p_tau E equil rows < 0 then .error "ValueError"
    else
      let frames := (p2ps.headD []).length
      let t := p2p_equil_start E equil rows
      let tn := (p2p_tau E equil rows).toNat
      let ind : ℤ := Int.fdiv ((frames : ℤ) - t) (p2p_tau E equil rows)
      if ind < 0 then .error "ValueError"
      else
        let indN := ind.toNat
        let total := indN * 5
        let traj : ℕ → ℕ → ℚ := fun P T =>
          (rows.getD (T / indN) []).getD (t + (T % indN) * tn + P) 0
        if total = 0 ∧ nboot ≠ 0 then .error "ValueError"
        else
          let boot := (List.range nboot).map (fun i =>
            ((List.range tn).foldl (fun acc j =>
              acc + traj ((rand (i * tn + j)).2 % tn) ((rand (i * tn + j)).1 % total)) 0) /
              (tn : ℚ))
          .ok (boot.sum / nboot,
            Real.sqrt ((boot.map (fun b => ((b : ℝ) - ((boot.sum / nboot : ℚ) : ℝ)) ^ 2)).sum /
              nboot))

/-- Enumeration of the claimed pair order 1-2, 1-3, 1-4, 2-3, 2-4, 3-4 in
0-based pore indices. -/
def p2pPairs : List (Fin 4 × Fin 4) := [(0, 1), (0, 2), (0, 3), (1, 2), (1, 3), (2, 3)]

/-! ### tilt.py : chain tilt angles -/

/-- numpy `np.dot` on 3-vectors (external, modelled mathematically). -/
def npDot3 (a b : ℚ × ℚ × ℚ) : ℚ := a.1 * b.1 + a.2.1 * b.2.1 + a.2.2 * b.2.2

/-- numpy `np.linalg.norm` of a 3-vector (external, modelled mathematically). -/
noncomputable def npNorm3 (v : ℚ × ℚ × ℚ) : ℝ :=
  Real.sqrt ((v.1 : ℝ) ^ 2 + (v.2.1 : ℝ) ^ 2 + (v.2.2 : ℝ) ^ 2)

/-- tilt.py lines 79-83: the contribution of one bond vector `v` against the
reference normal: `arcsin(|v·n| / (‖n‖·‖v‖)) · 180/π`. -/
noncomputable def tilt_term (v n : ℚ × ℚ × ℚ) : ℝ :=
  Real.arcsin (|(npDot3 v n : ℝ)| / (npNorm3 n * npNorm3 v)) * (180 / Real.pi)

/-- tilt.py lines 61-87: `w[i, j]`, the average tilt angle of chain `j` at
frame `i`; `pos i idx` is the position of flattened atom `idx` at frame `i`,
`atoms` the chain length.  The inner accumulation over the `atoms - 1` bond
vectors mirrors the source's `avg_tilt` loop. -/
noncomputable def angles (pos : ℕ → ℕ → ℚ × ℚ × ℚ) (atoms : ℕ)
    (normal : ℚ × ℚ × ℚ) (i j : ℕ) : ℝ :=
  ((List.range (atoms - 1)).foldl (fun acc k =>
    acc + tilt_term (pos i (j * atoms + k) - pos i (j * atoms + k + 1)) normal) 0) /
    ((atoms : ℝ) - 1)

/-- The default reference normal `[0, 0, -1]` of tilt.py line 61. -/
def tiltNormalDefault : ℚ × ℚ × ℚ := (0, 0, -1)

/-! ### file_rw.py : GRO reader/writer, assembly writer, last frame,
initial-configuration placement -/

/-- file_rw.py lines 43-59: GRO coordinate reader.  Input is the list of the
file's lines (with their trailing newlines); returns `(xyz, identity,
no_atoms, lines_of_text)`.  Positions are the column slices `[20:28)`,
`[28:36)`, `[36:44)` scaled by 10, identities the stripped slice `[11:16)`. -/
def read_gro_coords (a : List (List Char)) :
    List (ℚ × ℚ × ℚ) × List (List Char) × ℕ × ℕ :=
  let lot := 2
  let no_atoms := a.length - lot - 1
  ((List.range no_atoms).map (fun i =>
      let l := a.getD (i + lot) []
      (parseFloat (pySlice l 20 28) * 10, parseFloat (pySlice l 28 36) * 10,
       parseFloat (pySlice l 36 44) * 10)),
   (List.range no_atoms).map (fun i => stripChars (pySlice (a.getD (i + lot) []) 11 16)),
   no_atoms, lot)

/-- One atom of the single-frame trajectory handed to `write_gro`
(`a.residue.index`, `a.residue.name`, `a.name`, `pos[0, count, :]`). -/
structure GroAtom where
  resIndex : ℕ
  resName : List Char
  name : List Char
  x : ℚ
  y : ℚ
  z : ℚ

/-- file_rw.py line 410: the dict `d = {'H1': 'HW1', 'H2': 'HW2', 'O': 'OW'}`;
looking up a missing key raises. -/
def waterMap (n : List Char) : Option (List Char) :=
  if n = "H1".toList then some ("HW1".toList)
  else if n = "H2".toList then some ("HW2".toList)
  else if n = "O".toList then some ("OW".toList)
  else none

/-- The fixed-column atom record `'{:5d}{:5s}{:>5s}{:5d}{:8.3f}{:8.3f}{:8.3f}\n'`
of file_rw.py lines 414-418 (and 322). -/
def gro_line (resno : ℤ) (resnm atomnm : List Char) (serial : ℤ) (x y z : ℚ) :
    List Char :=
  formatInt 5 resno ++ formatStr 5 resnm ++ formatStrRight 5 atomnm ++
    formatInt 5 serial ++ formatFixed 3 8 x ++ formatFixed 3 8 y ++
    formatFixed 3 8 z ++ ['\n']

/-- file_rw.py lines 412-419: the record written for one atom (water residues
are renamed through `waterMap`; a water atom outside the dict raises). -/
def gro_atom_line (count : ℕ) (a : GroAtom) : Option (List Char) :=
  if a.resName = "HOH".toList then
    (waterMap a.name).map (fun nm =>
      gro_line (a.resIndex + 1) ("SOL".toList) nm (count + 1) a.x a.y a.z)
  else some (gro_line (a.resIndex + 1) a.resName a.name (count + 1) a.x a.y a.z)

/-- file_rw.py lines 421-423: the box-vector line
`'{:10f}' × 9` applied to `v[0,0,0], v[0,1,1], v[0,2,2], v[0,0,1], v[0,2,0],
v[0,1,0], v[0,0,2], v[0,1,2], v[0,2,0]` (verbatim index order). -/
def write_gro_box_line (v : Fin 3 → Fin 3 → ℚ) : List Char :=
  formatFixed 6 10 (v 0 0) ++ formatFixed 6 10 (v 1 1) ++ formatFixed 6 10 (v 2 2) ++
  formatFixed 6 10 (v 0 1) ++ formatFixed 6 10 (v 2 0) ++ formatFixed 6 10 (v 1 0) ++
  formatFixed 6 10 (v 0 2) ++ formatFixed 6 10 (v 1 2) ++ formatFixed 6 10 (v 2 0) ++ ['\n']

/-- file_rw.py lines 393-423: write a single-frame GRO file: title line, atom
count line, one record per atom, one box-vector line.  Result is the list of
written lines; `none` models the `KeyError` raised for a water atom whose name
is not in the rename dict. -/
def write_gro (atoms : List GroAtom) (v : Fin 3 → Fin 3 → ℚ) :
    Option (List (List Char)) := do
  let body ← atoms.enum.mapM (fun ci => gro_atom_line ci.1 ci.2)
  pure (("This is a .gro file\n".toList) :: (natChars atoms.length ++ ['\n']) ::
    (body ++ [write_gro_box_line v]))

/-- The nine width-10 columns of a written box-vector line, parsed back. -/
def box_line_values (l : List Char) : List ℚ :=
  (List.range 9).map (fun k => parseFloat (pySlice l (10 * k) (10 * (k + 1))))

/-- Topology-side data of one atom of a loaded trajectory
(`a.residue.index`, `a.residue.name`). -/
structure TopAtom where
  resIndex : ℕ
  resName : List Char

/-- A loaded trajectory: per-atom topology data and the per-frame positions. -/
structure Traj where
  atoms : List TopAtom
  frames : List (List (ℚ × ℚ × ℚ))

/-- Python `str.endswith`. -/
def endsWithChars (s p : List Char) : Bool :=
  decide (s.drop (s.length - p.length) = p)

/-- The 1-based residue numbers computed (and then discarded) by
file_rw.py line 380. -/
def last_frame_res_no (t : Traj) : List ℕ := t.atoms.map (fun a => a.resIndex + 1)

/-- The residue names computed (and then discarded) by file_rw.py line 381. -/
def last_frame_res_name (t : Traj) : List (List Char) := t.atoms.map (fun a => a.resName)

/-- file_rw.py lines 370-390: extract the final frame.  Returns the console
output together with the function's return value: for a `.trr`/`.xtc` name the
last frame's position array, otherwise the printed incompatible-filetype
message and no result (the source then falls off to `return last` with `last`
unbound, raising).  An empty trajectory is modelled as `none` (numpy raises on
`pos[-1]`). -/
def last_frame (trr : List Char) (t : Traj) :
    List (List Char) × Option (List (ℚ × ℚ × ℚ)) :=
  if endsWithChars trr (".trr".toList) || endsWithChars trr (".xtc".toList) then
    ([], t.frames.getLast?)
  else (["Incompatible Filetype".toList], none)

/-! #### write_assembly (file_rw.py lines 62-254) -/

def atomsPat : List Char := "[ atoms ]".toList
def bondsPat : List Char := "[ bonds ]".toList
def pairsPat : List Char := "[ pairs ]".toList
def anglesPat : List Char := "[ angles ]".toList
def dihPPat : List Char := "[ dihedrals ] ; propers".toList
def dihIPat : List Char := "[ dihedrals ] ; impropers".toList
def vsitePat : List Char := "[ virtual_sites4 ]".toList

/-- file_rw.py lines 221-254 (`get_indices`): index of the first line
containing the literal section token; the source's unbounded `while` loop is
`none` when the token is absent. -/
def findSection (a : List (List Char)) (pat : List Char) : Option ℕ :=
  a.findIdx? (fun l => containsSub l pat)

/-- The `while a[count] != '\n'` record counters: number of lines from `start`
up to the first blank line. -/
def sectionLen (a : List (List Char)) (start : ℕ) : ℕ :=
  ((a.drop start).takeWhile (fun l => !(l = ['\n']))).length

/-- file_rw.py line 99-101: the atoms record of copy `i`, template record
`l` (record index `k`): `'{:5d}{:25s}{:5d}{:}'` applied to `i*nr + k + 1`, the
pass-through slice `[6:29)`, the shifted charge-group field `i*nr + int(l[29:34))`,
and the remainder `l[34:]`. -/
def assembly_atom_line (nr i k : ℕ) (l : List Char) : List Char :=
  formatInt 5 ((i * nr + k + 1 : ℕ) : ℤ) ++ formatStr 25 (pySlice l 6 29) ++
    formatInt 5 ((i * nr : ℕ) + parseInt (pySlice l 29 34)) ++ pySliceFrom l 34

/-- file_rw.py lines 117-118: the bonds record of copy `i`: two shifted index
fields and the remainder slice `l[14:len(atoms_line_k)]` — the slice end is
taken from the length `la` of the corresponding atoms-section line. -/
def assembly_bond_line (nr la i : ℕ) (l : List Char) : List Char :=
  formatInt 6 ((i * nr : ℕ) + parseInt (pySlice l 0 6)) ++
    formatInt 7 ((i * nr : ℕ) + parseInt (pySlice l 6 14)) ++ pySlice l 14 la

/-- file_rw.py lines 134-135: the pairs record of copy `i`. -/
def assembly_pair_line (nr i : ℕ) (l : List Char) : List Char :=
  formatInt 6 ((i * nr : ℕ) + parseInt (pySlice l 0 6)) ++
    formatInt 7 ((i * nr : ℕ) + parseInt (pySlice l 6 14)) ++ pySliceFrom l 14

/-- file_rw.py lines 151-153: the angles record of copy `i`. -/
def assembly_angle_line (nr i : ℕ) (l : List Char) : List Char :=
  formatInt 6 ((i * nr : ℕ) + parseInt (pySlice l 0 6)) ++
    formatInt 7 ((i * nr : ℕ) + parseInt (pySlice l 6 14)) ++
    formatInt 7 ((i * nr : ℕ) + parseInt (pySlice l 14 22)) ++ pySliceFrom l 22

/-- file_rw.py lines 169-173 and 190-194: a dihedral record (proper or
improper, the formats agree) of copy `i`. -/
def assembly_dih_line (nr i : ℕ) (l : List Char) : List Char :=
  formatInt 6 ((i * nr : ℕ) + parseInt (pySlice l 0 6)) ++
    formatInt 7 ((i * nr : ℕ) + parseInt (pySlice l 6 14)) ++
    formatInt 7 ((i * nr : ℕ) + parseInt (pySlice l 14 22)) ++
    formatInt 7 ((i * nr : ℕ) + parseInt (pySlice l 22 30)) ++ pySliceFrom l 30

/-- file_rw.py lines 210-217: the virtual-site record of copy `i`: five
shifted index fields, the unshifted re-emitted function field `int(l[34:42))`,
two width-11 pass-through slices, and the remainder. -/
def assembly_vsite_line (nr i : ℕ) (l : List Char) : List Char :=
  formatIntLeft 8 ((i * nr : ℕ) + parseInt (pySlice l 0 8)) ++
    formatIntLeft 6 ((i * nr : ℕ) + parseInt (pySlice l 8 14)) ++
    formatIntLeft 6 ((i * nr : ℕ) + parseInt (pySlice l 14 20)) ++
    formatIntLeft 6 ((i * nr : ℕ) + parseInt (pySlice l 20 26)) ++
    formatIntLeft 8 ((i * nr : ℕ) + parseInt (pySlice l 26 34)) ++
    formatIntLeft 8 (parseInt (pySlice l 34 42)) ++
    formatStr 11 (pySlice l 42 53) ++ formatStr 11 (pySlice l 53 64) ++
    pySliceFrom l 64

/-- All records of one section, one run per copy: the concatenation over
copies `i < n` of the records `k < m`. -/
def sectionChunk (n m : ℕ) (f : ℕ → ℕ → List Char) : List Char :=
  ((List.range n).map (fun i => ((List.range m).map (f i)).flatten)).flatten

/-- file_rw.py lines 62-218 (`write_assembly`), on the template's line list
`a`: everything the function writes, in order.  `none` models the failure to
locate a section header. -/
def write_assembly (a : List (List Char)) (xlink : Bool) (no_mon : ℕ) :
    Option (List Char) := do
  let ai ← findSection a atomsPat
  let bi ← findSection a bondsPat
  let pri ← findSection a pairsPat
  let ani ← findSection a anglesPat
  let dpi ← findSection a dihPPat
  let dii ← findSection a dihIPat
  let vi ← if xlink then findSection a vsitePat else pure 0
  let nr := sectionLen a (ai + 2)
  let nb := sectionLen a (bi + 2)
  let npr := sectionLen a (pri + 2)
  let na := sectionLen a (ani + 2)
  let ndp := sectionLen a (dpi + 3)
  let ndi := sectionLen a (dii + 3)
  let nv := a.length - (vi + 2)
  pure (
    (a.take (ai + 2)).flatten ++
    sectionChunk no_mon nr (fun i k => assembly_atom_line nr i k (a.getD (k + ai + 2) [])) ++
    ['\n'] ++ a.getD bi [] ++ a.getD (bi + 1) [] ++
    sectionChunk no_mon nb (fun i k =>
      assembly_bond_line nr (a.getD (k + ai + 2) []).length i (a.getD (k + bi + 2) [])) ++
    ['\n'] ++ a.getD pri [] ++ a.getD (pri + 1) [] ++
    sectionChunk no_mon npr (fun i k => assembly_pair_line nr i (a.getD (k + pri + 2) [])) ++
    ['\n'] ++ a.getD ani [] ++ a.getD (ani + 1) [] ++
    sectionChunk no_mon na (fun i k => assembly_angle_line nr i (a.getD (k + ani + 2) [])) ++
    ['\n'] ++ a.getD dpi [] ++ a.getD (dpi + 2) [] ++
    sectionChunk no_mon ndp (fun i k => assembly_dih_line nr i (a.getD (k + dpi + 3) [])) ++
    ['\n'] ++ a.getD dii [] ++ a.getD (dii + 2) [] ++
    sectionChunk no_mon ndi (fun i k => assembly_dih_line nr i (a.getD (k + dii + 3) [])) ++
    ['\n'] ++
    (if xlink then
      a.getD vi [] ++ a.getD (vi + 1) [] ++
      sectionChunk no_mon nv (fun i k => assembly_vsite_line nr i (a.getD (k + vi + 2) []))
    else []))

/-! #### write_initial_config (file_rw.py lines 257-367) : pore offsets and
rotation angles -/

/-- Python `math.radians`. -/
noncomputable def pyRadians (x : ℚ) : ℝ := (x : ℝ) * Real.pi / 180

/-- file_rw.py lines 286-304: the xy offset `(b, c)` chosen for pore `l` in
the main monomer loop (`theta = 30` at that point). -/
noncomputable def main_pore_offset (l : ℕ) : ℝ × ℝ :=
  if l = 0 then (0, 0)
  else if l = 1 then (-1, 0)
  else if l = 2 then (-(Real.sin (pyRadians 30)), -(Real.cos (pyRadians 30)))
  else (Real.cos (pyRadians (90 - 30)), -(Real.sin (pyRadians (90 - 30))))

/-- file_rw.py lines 331-343: the xy offset `(b, c)` chosen for pore `l` in
the trailing ion loop. -/
noncomputable def ion_pore_offset (l : ℕ) : ℝ × ℝ :=
  if l = 0 then (0, 0)
  else if l = 1 then (-1, 0)
  else if l = 2 then (Real.cos (pyRadians (90 - 30)), -(Real.sin (pyRadians (90 - 30))))
  else (-(Real.sin (pyRadians 30)), -(Real.cos (pyRadians 30)))

/-- file_rw.py lines 309-311: the rotation angle of monomer `j` in a layer of
`layer_mons` monomers, layer `k`, in the main monomer loop (after `rot` was
converted to radians at line 266). -/
noncomputable def main_theta (j layer_mons : ℕ) (rot : ℝ) (offset : Bool) (k : ℕ) : ℝ :=
  (j : ℝ) * Real.pi / ((layer_mons : ℝ) / 2) + rot +
    (if offset then ((k % 2 : ℕ) : ℝ) * (Real.pi / (layer_mons : ℝ)) else 0)

/-- file_rw.py lines 347-349: the rotation angle of monomer `j` in the trailing
ion loop (no `rot` term). -/
noncomputable def ion_theta (j layer_mons : ℕ) (offset : Bool) (k : ℕ) : ℝ :=
  (j : ℝ) * Real.pi / ((layer_mons : ℝ) / 2) +
    (if offset then ((k % 2 : ℕ) : ℝ) * (Real.pi / (layer_mons : ℝ)) else 0)

/-- All ordered pairs `(a, b)` with `a < b` over the four pores, enumerated
lexicographically (the specification's pair order). -/
def finPairsLex : List (Fin 4 × Fin 4) :=
  (((List.finRange 4).map (fun a => (List.finRange 4).map (fun b => (a, b)))).flatten).filter
    (fun pr => decide (pr.1 < pr.2))

/-- The unpadded digits written by `formatFixed`. -/
def fixedBody (p : ℕ) (n : ℤ) : List Char :=
  (if n < 0 then ['-'] else []) ++ natChars (n.natAbs / 10 ^ p) ++
    '.' :: padLeft p '0' (natChars (n.natAbs % 10 ^ p))

/-- The value actually recorded by a `p`-decimal fixed-point write: the
nearest multiple of `10^(-p)`. -/
def roundDec (p : ℕ) (q : ℚ) : ℚ := (round (q * 10 ^ p) : ℚ) / 10 ^ p

/-- The residue name `write_gro` puts on disk for an atom (water renamed). -/
def gro_written_resname (a : GroAtom) : List Char :=
  if a.resName = "HOH".toList then "SOL".toList else a.resName

/-- The atom name `write_gro` puts on disk for an atom (water renamed). -/
def gro_written_name (a : GroAtom) : List Char :=
  if a.resName = "HOH".toList then (waterMap a.name).getD [] else a.name

/-- The record `write_gro` emits for atom `a` at position `count` (after the
water renaming). -/
def gro_written_line (count : ℕ) (a : GroAtom) : List Char :=
  gro_line (a.resIndex + 1) (gro_written_resname a) (gro_written_name a) (count + 1)
    a.x a.y a.z

/-- A concrete box matrix with nine pairwise distinct entries. -/
def exBoxV : Fin 3 → Fin 3 → ℚ := fun i j => 3 * ((i : ℕ) : ℚ) + ((j : ℕ) : ℚ)

/-! ### General list / sum lemmas -/

lemma getD_drop {α : Type} (l : List α) (n i : ℕ) (d : α) :
    (l.drop n).getD i d = l.getD (n + i) d := by
  induction l generalizing n with
  | nil => simp
  | cons h t ih =>
    cases n with
    | zero => simp
    | succ m =>
      show (t.drop m).getD i d = (h :: t).getD (m + 1 + i) d
      rw [ih m]
      have e : m + 1 + i = (m + i) + 1 := by omega
      rw [e, List.getD_cons_succ]

lemma getD_take {α : Type} (l : List α) (n i : ℕ) (d : α) (h : i < n) :
    (l.take n).getD i d = l.getD i d := by
  induction l generalizing n i with
  | nil => simp
  | cons hd t ih =>
    cases n with
    | zero => omega
    | succ m =>
      cases i with
      | zero => simp
      | succ j => simpa using ih m j (by omega)

lemma getD_map {α β : Type} (f : α → β) (l : List α) (i : ℕ) (d : β) (d' : α)
    (h : i < l.length) : (l.map f).getD i d = f (l.getD i d') := by
  induction l generalizing i with
  | nil => simp at h
  | cons hd t ih =>
    cases i with
    | zero => simp
    | succ j => simpa using ih j (by simpa using h)

lemma getD_append_lt {α : Type} (l1 l2 : List α) (i : ℕ) (d : α) (h : i < l1.length) :
    (l1 ++ l2).getD i d = l1.getD i d := by
  induction l1 generalizing i with
  | nil => simp at h
  | cons c t ih =>
    cases i with
    | zero => simp
    | succ j => simpa using ih j (by simpa using h)

lemma getD_append_ge {α : Type} (l1 l2 : List α) (i : ℕ) (d : α) (h : l1.length ≤ i) :
    (l1 ++ l2).getD i d = l2.getD (i - l1.length) d := by
  induction l1 generalizing i with
  | nil => simp
  | cons c t ih =>
    cases i with
    | zero => simp at h
    | succ j => simpa using ih j (by simpa using h)

lemma drop_append_ge {α : Type} (l1 l2 : List α) (i : ℕ) (h : l1.length ≤ i) :
    (l1 ++ l2).drop i = l2.drop (i - l1.length) := by
  induction l1 generalizing i with
  | nil => simp
  | cons c t ih =>
    cases i with
    | zero => simp at h
    | succ m => simpa using ih m (by simpa using h)

lemma drop_append_le {α : Type} (l1 l2 : List α) (i : ℕ) (h : i ≤ l1.length) :
    (l1 ++ l2).drop i = l1.drop i ++ l2 := by
  induction l1 generalizing i with
  | nil =>
    have : i = 0 := by simpa using h
    simp [this]
  | cons c t ih =>
    cases i with
    | zero => simp
    | succ m => simpa using ih m (by simpa using h)

lemma take_append_le {α : Type} (l1 l2 : List α) (i : ℕ) (h : i ≤ l1.length) :
    (l1 ++ l2).take i = l1.take i := by
  induction l1 generalizing i with
  | nil =>
    have : i = 0 := by simpa using h
    simp [this]
  | cons c t ih =>
    cases i with
    | zero => simp
    | succ m => simpa using ih m (by simpa using h)

lemma pySlice_append_right (l1 l2 : List Char) (i j : ℕ) (h : l1.length ≤ i) :
    pySlice (l1 ++ l2) i j = pySlice l2 (i - l1.length) (j - l1.length) := by
  unfold pySlice
  rw [drop_append_ge l1 l2 i h]
  congr 1
  omega

lemma pySlice_append_left (l1 l2 : List Char) (i j : ℕ) (h : j ≤ l1.length) :
    pySlice (l1 ++ l2) i j = pySlice l1 i j := by
  unfold pySlice
  by_cases hi : i ≤ l1.length
  · rw [drop_append_le l1 l2 i hi]
    rw [take_append_le]
    have : (l1.drop i).length = l1.length - i := by simp
    omega
  · push_neg at hi
    have hj : j - i = 0 := by omega
    simp [hj]

lemma pySlice_exact (f rest : List Char) (w : ℕ) (h : f.length = w) :
    pySlice (f ++ rest) 0 w = f := by
  rw [pySlice_append_left f rest 0 w (by omega)]
  unfold pySlice
  simp [← h]

lemma sum_rot (n : ℕ) (F : ℕ → ℚ) :
    ∑ i in Finset.range n, F ((i + 1) % n) = ∑ i in Finset.range n, F i := by
  cases n with
  | zero => simp
  | succ m =>
    rw [Finset.sum_range_succ, Finset.sum_range_succ']
    congr 1
    · refine Finset.sum_congr rfl (fun i hi => ?_)
      rw [Nat.mod_eq_of_lt (by simp at hi; omega)]
    · rw [Nat.mod_self]

lemma prev_next (n i : ℕ) (h : i < n) : ((i + 1) % n + (n - 1)) % n = i := by
  rcases Nat.lt_or_ge (i + 1) n with hlt | hge
  · rw [Nat.mod_eq_of_lt hlt]
    have e : i + 1 + (n - 1) = i + n := by omega
    rw [e, Nat.add_mod_right, Nat.mod_eq_of_lt h]
  · have e : i + 1 = n := by omega
    rw [e, Nat.mod_self, Nat.zero_add, Nat.mod_eq_of_lt (by omega)]
    omega

lemma sum_rot_prev (n : ℕ) (F : ℕ → ℚ) :
    ∑ i in Finset.range n, F ((i + (n - 1)) % n) = ∑ i in Finset.range n, F i := by
  have h1 : ∑ i in Finset.range n, F i
      = ∑ i in Finset.range n, F (((i + 1) % n + (n - 1)) % n) := by
    refine Finset.sum_congr rfl (fun i hi => ?_)
    rw [prev_next n i (by simpa using hi)]
  rw [h1, sum_rot n (fun j => F ((j + (n - 1)) % n))]

lemma npRoll1_getD (l : List ℚ) (i : ℕ) (h : i < l.length) :
    (npRoll1 l).getD i 0 = l.getD ((i + (l.length - 1)) % l.length) 0 := by
  unfold npRoll1
  have hlen : (l.drop (l.length - 1)).length = 1 := by
    rw [List.length_drop]
    omega
  cases i with
  | zero =>
    rw [getD_append_lt (l.drop (l.length - 1)) (l.take (l.length - 1)) 0 0
      (by rw [hlen]; exact Nat.zero_lt_one)]
    rw [getD_drop l (l.length - 1) 0 0]
    rw [Nat.mod_eq_of_lt (by omega)]
    congr 1
    omega
  | succ j =>
    rw [getD_append_ge (l.drop (l.length - 1)) (l.take (l.length - 1)) (j + 1) 0
      (by rw [hlen]; omega)]
    rw [hlen]
    have e1 : j + 1 - 1 = j := by omega
    rw [e1]
    rw [getD_take l (l.length - 1) j 0 (by omega)]
    have e : j + 1 + (l.length - 1) = j + l.length := by omega
    rw [e, Nat.add_mod_right, Nat.mod_eq_of_lt (by omega)]

lemma npDot_npRoll1 (x y : List ℚ) (h : x.length = y.length) :
    npDot x (npRoll1 y) = cycSum y x := by
  unfold npDot cycSum
  rw [← h]
  rcases Nat.eq_zero_or_pos x.length with h0 | hpos
  · simp [h0]
  · have step1 : ∑ i in Finset.range x.length, x.getD i 0 * (npRoll1 y).getD i 0
        = ∑ i in Finset.range x.length,
            (fun j => y.getD ((j + (x.length - 1)) % x.length) 0 * x.getD j 0) i := by
      refine Finset.sum_congr rfl (fun i hi => ?_)
      show x.getD i 0 * (npRoll1 y).getD i 0
          = y.getD ((i + (x.length - 1)) % x.length) 0 * x.getD i 0
      rw [npRoll1_getD y i (by rw [← h]; simpa using hi), ← h]
      ring
    rw [step1, ← sum_rot x.length
      (fun j => y.getD ((j + (x.length - 1)) % x.length) 0 * x.getD j 0)]
    refine Finset.sum_congr rfl (fun i hi => ?_)
    show y.getD (((i + 1) % x.length + (x.length - 1)) % x.length) 0 *
          x.getD ((i + 1) % x.length) 0
        = y.getD i 0 * x.getD ((i + 1) % x.length) 0
    rw [prev_next x.length i (by simpa using hi)]

lemma foldl_add_range (n : ℕ) (f : ℕ → ℝ) :
    (List.range n).foldl (fun acc k => acc + f k) 0 = ∑ k in Finset.range n, f k := by
  induction n with
  | zero => simp
  | succ m ih =>
    rw [List.range_succ, List.foldl_append, Finset.sum_range_succ, ih]
    rfl

lemma getD_mem {α : Type} (l : List α) (i : ℕ) (d : α) (h : i < l.length) :
    l.getD i d ∈ l := by
  induction l generalizing i with
  | nil => simp at h
  | cons hd t ih =>
    cases i with
    | zero => simp
    | succ j =>
      have := ih j (by simpa using h)
      simp only [List.getD_cons_succ]
      exact List.mem_cons_of_mem hd this

/-- The cross term of two points drawn from a two-element set `{P, Q}` factors
through the indicator of `Q`. -/
lemma cross_two_values (P Q u w : ℚ × ℚ) (hu : u = P ∨ u = Q) (hw : w = P ∨ w = Q) :
    u.1 * w.2 - u.2 * w.1 =
      (P.1 * Q.2 - P.2 * Q.1) *
        ((if w = Q then (1 : ℚ) else 0) - (if u = Q then (1 : ℚ) else 0)) := by
  rcases hu with hu | hu <;> rcases hw with hw | hw
  · rw [hu, hw]
    simp only [sub_self, mul_zero]
    ring
  · rw [hu, hw]
    by_cases hPQ : P = Q
    · rw [hPQ]
      simp only [sub_self, mul_zero]
      ring
    · rw [if_neg hPQ, if_pos rfl]
      ring
  · rw [hu, hw]
    by_cases hPQ : P = Q
    · rw [hPQ]
      simp only [sub_self, mul_zero]
      ring
    · rw [if_neg hPQ, if_pos rfl]
      ring
  · rw [hu, hw]
    simp only [sub_self, mul_zero]
    ring

/-- The signed cyclic shoelace sum of a vertex list whose points all come from
a two-element set vanishes: each cross term equals `c` times a difference of
indicator values, and the cyclic telescoping sum of those differences is 0. -/
lemma PolyArea_two_values (l : List (ℚ × ℚ)) (P Q : ℚ × ℚ)
    (hl : ∀ p ∈ l, p = P ∨ p = Q) :
    PolyArea (l.map Prod.fst) (l.map Prod.snd) = 0 := by
  unfold PolyArea
  rcases Nat.eq_zero_or_pos l.length with h0 | hpos
  · have hnil : l = [] := List.length_eq_zero.mp h0
    subst hnil
    simp [npDot, npRoll1]
  · have key : npDot (l.map Prod.fst) (npRoll1 (l.map Prod.snd)) -
        npDot (l.map Prod.snd) (npRoll1 (l.map Prod.fst)) = 0 := by
      unfold npDot
      rw [List.length_map, List.length_map, ← Finset.sum_sub_distrib]
      have hterm : ∀ i ∈ Finset.range l.length,
          (l.map Prod.fst).getD i 0 * (npRoll1 (l.map Prod.snd)).getD i 0 -
          (l.map Prod.snd).getD i 0 * (npRoll1 (l.map Prod.fst)).getD i 0
          = (P.1 * Q.2 - P.2 * Q.1) *
              ((if l.getD ((i + (l.length - 1)) % l.length) (0, 0) = Q then (1 : ℚ) else 0) -
               (if l.getD i (0, 0) = Q then (1 : ℚ) else 0)) := by
        intro i hi
        have hi' : i < l.length := by simpa using hi
        have hprevlt : (i + (l.length - 1)) % l.length < l.length := Nat.mod_lt _ hpos
        have e1 : (l.map Prod.fst).getD i 0 = (l.getD i (0, 0)).1 :=
          getD_map Prod.fst l i 0 (0, 0) hi'
        have e2 : (l.map Prod.snd).getD i 0 = (l.getD i (0, 0)).2 :=
          getD_map Prod.snd l i 0 (0, 0) hi'
        have e3 : (npRoll1 (l.map Prod.snd)).getD i 0 =
            (l.getD ((i + (l.length - 1)) % l.length) (0, 0)).2 := by
          rw [npRoll1_getD (l.map Prod.snd) i (by simpa using hi'), List.length_map]
          exact getD_map Prod.snd l _ 0 (0, 0) hprevlt
        have e4 : (npRoll1 (l.map Prod.fst)).getD i 0 =
            (l.getD ((i + (l.length - 1)) % l.length) (0, 0)).1 := by
          rw [npRoll1_getD (l.map Prod.fst) i (by simpa using hi'), List.length_map]
          exact getD_map Prod.fst l _ 0 (0, 0) hprevlt
        rw [e1, e2, e3, e4]
        exact cross_two_values P Q (l.getD i (0, 0))
          (l.getD ((i + (l.length - 1)) % l.length) (0, 0))
          (hl _ (getD_mem l i (0, 0) hi')) (hl _ (getD_mem l _ (0, 0) hprevlt))
      rw [Finset.sum_congr rfl hterm, ← Finset.mul_sum, Finset.sum_sub_distrib]
      rw [sum_rot_prev l.length (fun j => if l.getD j (0, 0) = Q then (1 : ℚ) else 0)]
      ring
    rw [key]
    simp

lemma range_map_getD {α : Type} (l : List α) (d : α) :
    (List.range l.length).map (fun v => l.getD v d) = l := by
  induction l with
  | nil => simp
  | cons h t ih =>
    rw [List.length_cons, List.range_succ_eq_map]
    simp only [List.map_cons, List.getD_cons_zero, List.map_map]
    have hfun : ((fun v => (h :: t).getD v d) ∘ Nat.succ) = fun v => t.getD v d := by
      funext v
      simp
    rw [hfun, ih]

/-! ### Claim C8 -/

/-- C8: `PolyArea` computes the cyclic shoelace area
`0.5·|Σᵢ xᵢ·y_{i+1} − Σᵢ yᵢ·x_{i+1}|` (cyclic indexing); for the unit square
(0,0),(1,0),(1,1),(0,1) in order it returns exactly 1; and `overlap` reports
area 0 whenever fewer than 3 distinct overlap points are collected (the
convex-hull ordering, an external routine, returns the collected points in
convex counter-clockwise order, i.e. a permutation). -/
theorem C8_shoelace_overlap :
    (∀ x y : List ℚ, x.length = y.length →
      PolyArea x y = (1 / 2) * |cycSum x y - cycSum y x|) ∧
    PolyArea [0, 1, 1, 0] [0, 0, 1, 1] = 1 ∧
    (∀ (hullVertices : List (ℚ × ℚ) → List ℕ)
       (contains : List (ℚ × ℚ) → ℚ × ℚ → Bool) (poly1 poly2 : List (ℚ × ℚ)),
      (∀ pts, ((hullVertices pts).map (fun v => pts.getD v (0, 0))).Perm pts) →
      (overlap_pts contains poly1 poly2).dedup.length ≤ 2 →
      overlap hullVertices contains poly1 poly2 = 0) := by
  refine ⟨fun x y h => ?_,
    by simp [PolyArea, npDot, npRoll1, Finset.sum_range_succ]; norm_num,
    fun hull contains poly1 poly2 hperm hdist => ?_⟩
  · unfold PolyArea
    rw [npDot_npRoll1 x y h, npDot_npRoll1 y x h.symm, abs_sub_comm]
  · show (if 4 < 2 * (overlap_pts contains poly1 poly2).length then
        PolyArea ((order_pts hull (overlap_pts contains poly1 poly2)).map Prod.fst)
          ((order_pts hull (overlap_pts contains poly1 poly2)).map Prod.snd)
      else 0) = 0
    set pts := overlap_pts contains poly1 poly2 with hpts
    by_cases hlen : 4 < 2 * pts.length
    · rw [if_pos hlen]
      have hcov : ∃ P Q : ℚ × ℚ, ∀ p ∈ pts, p = P ∨ p = Q := by
        rcases hd : pts.dedup with _ | ⟨P, t⟩
        · refine ⟨(0, 0), (0, 0), fun p hp => ?_⟩
          have hmem : p ∈ pts.dedup := List.mem_dedup.mpr hp
          rw [hd] at hmem
          simp at hmem
        · rcases t with _ | ⟨Q, t2⟩
          · refine ⟨P, P, fun p hp => ?_⟩
            have hmem : p ∈ pts.dedup := List.mem_dedup.mpr hp
            rw [hd] at hmem
            simp at hmem
            exact Or.inl hmem
          · have ht2 : t2 = [] := by
              rw [hd] at hdist
              simp only [List.length_cons] at hdist
              exact List.length_eq_zero.mp (by omega)
            subst ht2
            refine ⟨P, Q, fun p hp => ?_⟩
            have hmem : p ∈ pts.dedup := List.mem_dedup.mpr hp
            rw [hd] at hmem
            simpa using hmem
      obtain ⟨P, Q, hcov⟩ := hcov
      have hleneq : (hull pts).length = pts.length := by
        have hle := (hperm pts).length_eq
        simpa using hle
      have hop : order_pts hull pts = (hull pts).map (fun v => pts.getD v (0, 0)) := by
        show (hull pts).map (fun v => pts.getD v (0, 0)) ++
            List.replicate (pts.length - (hull pts).length) (0, 0) = _
        rw [hleneq, Nat.sub_self]
        simp
      rw [hop]
      exact PolyArea_two_values _ P Q (fun p hp => hcov p ((hperm pts).mem_iff.mp hp))
    · rw [if_neg hlen]

/-- Witness for C8: with the convex-hull ordering instantiated by the identity
permutation and a containment test that collects nothing, two empty vertex
lists collect no overlap points (fewer than 3 distinct) and the overlap area
is 0. -/
theorem C8_shoelace_overlap_witness :
    overlap (fun l => List.range l.length) (fun _ _ => false)
      ([] : List (ℚ × ℚ)) ([] : List (ℚ × ℚ)) = 0 := by
  have h0 : overlap_pts (fun _ _ => false) ([] : List (ℚ × ℚ)) [] = [] := by
    norm_num [overlap_pts, intersection, intersect, ccw]
  exact C8_shoelace_overlap.2.2 (fun l => List.range l.length) (fun _ _ => false) [] []
    (fun pts => by rw [range_map_getD pts (0, 0)]) (by rw [h0]; simp)

/-! ### Claim C7 -/

/-- C7: `intersect A B C D` of eclipse.py reports an intersection iff the two
strict orientation sign tests `ccw` (the sign of
`(C.y − A.y)(B.x − A.x) − (B.y − A.y)(C.x − A.x)`) disagree on `(A,C,D)` versus
`(B,C,D)` and on `(A,B,C)` versus `(A,B,D)`; the crossing segments
(0,0)-(1,1) and (0,1)-(1,0) intersect at (0.5, 0.5), and the parallel segments
(0,0)-(1,0) and (0,1)-(1,1) do not intersect. -/
theorem C7_segment_intersection :
    (∀ A B C D : ℚ × ℚ,
      intersect A B C D = true ↔
        ((0 < (D.2 - A.2) * (C.1 - A.1) - (C.2 - A.2) * (D.1 - A.1)) ↔
          ¬(0 < (D.2 - B.2) * (C.1 - B.1) - (C.2 - B.2) * (D.1 - B.1))) ∧
        ((0 < (C.2 - A.2) * (B.1 - A.1) - (B.2 - A.2) * (C.1 - A.1)) ↔
          ¬(0 < (D.2 - A.2) * (B.1 - A.1) - (B.2 - A.2) * (D.1 - A.1)))) ∧
    intersection (0, 0) (1, 1) (0, 1) (1, 0) = some (1 / 2, 1 / 2) ∧
    intersect (0, 0) (1, 0) (0, 1) (1, 1) = false := by
  refine ⟨fun A B C D => ?_, by norm_num [intersection, intersect, ccw, slope],
    by norm_num [intersect, ccw]⟩
  unfold intersect ccw
  simp only [Bool.and_eq_true, bne_iff_ne, ne_eq, decide_eq_decide, sub_pos]
  constructor
  · rintro ⟨h1, h2⟩
    exact ⟨by tauto, by tauto⟩
  · rintro ⟨h1, h2⟩
    exact ⟨by tauto, by tauto⟩

/-! ### Claim C6 -/

/-- C6: per frame, `p2p` computes exactly the six Euclidean distances between
the four pore centres, enumerated in the lexicographic pair order
1-2, 1-3, 1-4, 2-3, 2-4, 3-4; the exclusion phase of `p2p_stats` then removes
exactly the series at index `exclude`, keeping the other five in order
(default 4, which is the pair 2-4). -/
theorem C6_pair_enumeration :
    (∀ (c : ℕ → Fin 4 → ℚ × ℚ) (i : ℕ),
      p2p c i = p2pPairs.map (fun pr => euclidDist (c i pr.1) (c i pr.2))) ∧
    p2pPairs = finPairsLex ∧
    (∀ (rows : List (List ℚ)) (ex : ℕ), rows.length = 6 → ex < 6 →
      exclude_loop rows ex = Except.ok (rows.eraseIdx ex)) ∧
    p2pPairs.eraseIdx 4 = [(0, 1), (0, 2), (0, 3), (1, 2), (2, 3)] := by
  refine ⟨fun c i => ?_, by decide, fun rows ex h6 hex => ?_, by decide⟩
  · have hsub : ∀ u v : ℚ × ℚ, npNorm2 (u - v) = euclidDist u v := by
      intro u v
      unfold npNorm2 euclidDist
      rw [Prod.fst_sub, Prod.snd_sub]
      push_cast
      ring_nf
    simp only [p2p, p2pPairs, List.map, hsub]
  · rcases rows with _ | ⟨r0, _ | ⟨r1, _ | ⟨r2, _ | ⟨r3, _ | ⟨r4, _ | ⟨r5, rest⟩⟩⟩⟩⟩⟩ <;>
      simp only [List.length_cons, List.length_nil] at h6 <;> try omega
    have hrest : rest = [] := by
      have : rest.length = 0 := by omega
      exact List.length_eq_zero.mp this
    subst hrest
    interval_cases ex <;> rfl

/-- Witness for C6 at a concrete input: the default exclusion index 4 removes
the fifth of the six series, leaving the other five in order. -/
theorem C6_pair_enumeration_witness :
    exclude_loop [[1], [2], [3], [4], [5], [6]] 4 =
      Except.ok ([[1], [2], [3], [4], [6]] : List (List ℚ)) := by
  have h := C6_pair_enumeration.2.2.1 [[1], [2], [3], [4], [5], [6]] 4 rfl (by omega)
  simpa using h

/-! ### Claim C5 -/

/-- C5: whenever the truncated maximum integrated autocorrelation time is
zero, `p2p_stats` reaches the unguarded Python 2 integer division
`(frames - t) / tau` and raises `ZeroDivisionError`; no guard prevents it. -/
theorem C5_zero_tau_division (E : PymbarModel) (rand : ℕ → ℕ × ℕ)
    (p2ps : List (List ℚ)) (exclude nboot : ℕ) (equil : Option ℕ)
    (rows : List (List ℚ)) (hrows : exclude_loop p2ps exclude = Except.ok rows)
    (htau : p2p_tau E equil rows = 0) :
    p2p_stats E rand p2ps exclude nboot equil = Except.error "ZeroDivisionError" := by
  unfold p2p_stats
  rw [hrows]
  simp [htau]

/-- Witness for C5: a concrete six-series input whose (modelled) integrated
autocorrelation time is 0 everywhere, so `int(max(taus)) = 0` and the
division fails. -/
theorem C5_zero_tau_division_witness :
    p2p_stats ⟨fun _ => 0, fun _ => 0⟩ (fun _ => (0, 0))
      [[1, 2, 3], [1, 2, 3], [1, 2, 3], [1, 2, 3], [1, 2, 3], [1, 2, 3]] 4 200 (some 0) =
      Except.error "ZeroDivisionError" := by
  have h := C5_zero_tau_division ⟨fun _ => 0, fun _ => 0⟩ (fun _ => (0, 0))
    [[1, 2, 3], [1, 2, 3], [1, 2, 3], [1, 2, 3], [1, 2, 3], [1, 2, 3]] 4 200 (some 0)
    [[1, 2, 3], [1, 2, 3], [1, 2, 3], [1, 2, 3], [1, 2, 3]] rfl rfl
  exact h

/-! ### Claim C9 -/

/-- C9: `angles` averages, over the `atoms - 1` consecutive bond vectors of a
chain, the angle `arcsin(|v·n| / (|n|·|v|))` in degrees against the reference
normal (default `(0, 0, -1)`); a bond vector exactly parallel to the normal
yields 90 degrees and one exactly perpendicular to it yields 0 degrees. -/
theorem C9_tilt_angles :
    (∀ (pos : ℕ → ℕ → ℚ × ℚ × ℚ) (atoms : ℕ) (normal : ℚ × ℚ × ℚ) (i j : ℕ),
      angles pos atoms normal i j =
        (∑ k in Finset.range (atoms - 1),
          tilt_term (pos i (j * atoms + k) - pos i (j * atoms + k + 1)) normal) /
          ((atoms : ℝ) - 1)) ∧
    (∀ c : ℚ, c ≠ 0 → tilt_term (0, 0, c) tiltNormalDefault = 90) ∧
    (∀ a b : ℚ, ¬(a = 0 ∧ b = 0) → tilt_term (a, b, 0) tiltNormalDefault = 0) := by
  refine ⟨fun pos atoms normal i j => ?_, fun c hc => ?_, fun a b hab => ?_⟩
  · unfold angles
    rw [foldl_add_range (atoms - 1)
      (fun k => tilt_term (pos i (j * atoms + k) - pos i (j * atoms + k + 1)) normal)]
  · unfold tilt_term tiltNormalDefault npDot3 npNorm3
    have h1 : ((0 : ℚ) : ℝ) ^ 2 + ((0 : ℚ) : ℝ) ^ 2 + ((-1 : ℚ) : ℝ) ^ 2 = 1 := by norm_num
    rw [h1, Real.sqrt_one]
    have h2 : ((0 : ℚ) : ℝ) ^ 2 + ((0 : ℚ) : ℝ) ^ 2 + ((c : ℚ) : ℝ) ^ 2 = (c : ℝ) ^ 2 := by
      norm_num
    rw [h2, Real.sqrt_sq_eq_abs]
    have h3 : ((0 * 0 + 0 * 0 + c * -1 : ℚ) : ℝ) = -(c : ℝ) := by push_cast; ring
    rw [h3, abs_neg]
    have h4 : |(c : ℝ)| ≠ 0 := by
      simp only [ne_eq, abs_eq_zero, Rat.cast_eq_zero]
      exact hc
    rw [one_mul, div_self h4, Real.arcsin_one]
    field_simp
    ring
  · unfold tilt_term tiltNormalDefault npDot3
    have h3 : ((a * 0 + b * 0 + 0 * -1 : ℚ) : ℝ) = 0 := by push_cast; ring
    rw [h3, abs_zero, zero_div, Real.arcsin_zero, zero_mul]

/-- Witness for C9: a bond vector (0,0,2) parallel to the default normal gives
90 degrees and a bond vector (3,0,0) perpendicular to it gives 0 degrees. -/
theorem C9_tilt_angles_witness :
    tilt_term (0, 0, 2) tiltNormalDefault = 90 ∧
    tilt_term (3, 0, 0) tiltNormalDefault = 0 :=
  ⟨C9_tilt_angles.2.1 2 (by norm_num), C9_tilt_angles.2.2 3 0 (by norm_num)⟩

/-! ### Claim C10 -/

/-- C10: in `write_initial_config`, the trailing ion loop assigns pore 2 the
xy offset `(cos(90°−30°), −sin(90°−30°))` that the main monomer loop assigns
to pore 3, and assigns pore 3 the offset `(−sin 30°, −cos 30°)` that the main
loop assigns to pore 2 — and those two offsets genuinely differ — while the
ion rotation angle omits exactly the `rot` term the main loop adds. -/
theorem C10_ion_placement :
    ion_pore_offset 2 = main_pore_offset 3 ∧
    ion_pore_offset 3 = main_pore_offset 2 ∧
    main_pore_offset 2 ≠ main_pore_offset 3 ∧
    (∀ (j m k : ℕ) (rot : ℝ) (offset : Bool),
      main_theta j m rot offset k = ion_theta j m offset k + rot) := by
  refine ⟨rfl, rfl, ?_, fun j m k rot offset => ?_⟩
  · unfold main_pore_offset
    simp only [OfNat.ofNat_ne_zero, if_false, OfNat.ofNat_ne_one]
    intro hEq
    have h1 : -(Real.sin (pyRadians 30)) = Real.cos (pyRadians (90 - 30)) := by
      have := congrArg Prod.fst hEq
      simpa using this
    have hr30 : pyRadians 30 = Real.pi / 6 := by
      unfold pyRadians
      push_cast
      ring
    have hr60 : pyRadians (90 - 30) = Real.pi / 3 := by
      unfold pyRadians
      push_cast
      ring
    rw [hr30, hr60, Real.sin_pi_div_six, Real.cos_pi_div_three] at h1
    norm_num at h1
  · unfold main_theta ion_theta
    ring

/-! ### Text toolkit lemmas -/

lemma digitVal_digitChar (d : ℕ) (h : d < 10) : digitVal (Nat.digitChar d) = d := by
  interval_cases d <;> rfl

lemma natCharsAux_digits (fuel n : ℕ) :
    ∀ c ∈ natCharsAux fuel n, ∃ d, d < 10 ∧ c = Nat.digitChar d := by
  induction fuel generalizing n with
  | zero => intro c hc; simp [natCharsAux] at hc
  | succ f ih =>
    intro c hc
    cases n with
    | zero => simp [natCharsAux] at hc
    | succ m =>
      rw [natCharsAux] at hc
      rcases List.mem_append.mp hc with h1 | h1
      · exact ih _ c h1
      · simp only [List.mem_singleton] at h1
        exact ⟨(m + 1) % 10, Nat.mod_lt _ (by omega), h1⟩

lemma natChars_digits (n : ℕ) :
    ∀ c ∈ natChars n, ∃ d, d < 10 ∧ c = Nat.digitChar d := by
  unfold natChars
  by_cases h : n = 0
  · rw [if_pos h]
    intro c hc
    simp only [List.mem_singleton] at hc
    exact ⟨0, by omega, hc⟩
  · rw [if_neg h]
    exact natCharsAux_digits n n

lemma digitChar_not_ws (d : ℕ) (h : d < 10) : isWs (Nat.digitChar d) = false := by
  interval_cases d <;> rfl

lemma digitChar_ne_dot (d : ℕ) (h : d < 10) : Nat.digitChar d ≠ '.' := by
  interval_cases d <;> decide

lemma digitChar_ne_dash (d : ℕ) (h : d < 10) : Nat.digitChar d ≠ '-' := by
  interval_cases d <;> decide

lemma digitChar_ne_plus (d : ℕ) (h : d < 10) : Nat.digitChar d ≠ '+' := by
  interval_cases d <;> decide

lemma natCharsAux_ne_nil (fuel n : ℕ) (hf : 0 < fuel) (hn : 0 < n) :
    natCharsAux fuel n ≠ [] := by
  cases fuel with
  | zero => omega
  | succ f =>
    cases n with
    | zero => omega
    | succ m =>
      rw [natCharsAux]
      simp

lemma natChars_ne_nil (n : ℕ) : natChars n ≠ [] := by
  unfold natChars
  by_cases h : n = 0
  · rw [if_pos h]; simp
  · rw [if_neg h]; exact natCharsAux_ne_nil n n (by omega) (by omega)

lemma parseNat_append_digit (s : List Char) (c : Char) :
    parseNat (s ++ [c]) = 10 * parseNat s + digitVal c := by
  unfold parseNat
  rw [List.foldl_append]
  rfl

lemma parseNat_natCharsAux (fuel n : ℕ) (h : n ≤ fuel) :
    parseNat (natCharsAux fuel n) = n := by
  induction fuel generalizing n with
  | zero =>
    have hn : n = 0 := by omega
    subst hn; rfl
  | succ f ih =>
    cases n with
    | zero => rfl
    | succ m =>
      rw [natCharsAux, parseNat_append_digit]
      rw [ih ((m + 1) / 10) (by
        have hlt := Nat.div_lt_self (show 0 < m + 1 by omega) (show 1 < 10 by omega)
        omega)]
      rw [digitVal_digitChar _ (Nat.mod_lt _ (by omega))]
      omega

lemma parseNat_natChars (n : ℕ) : parseNat (natChars n) = n := by
  unfold natChars
  by_cases h : n = 0
  · rw [if_pos h, h]; rfl
  · rw [if_neg h]; exact parseNat_natCharsAux n n le_rfl

lemma parseNat_zeros (k : ℕ) (t : List Char) :
    parseNat (List.replicate k '0' ++ t) = parseNat t := by
  induction k with
  | zero => rfl
  | succ m ih =>
    show parseNat ('0' :: (List.replicate m '0' ++ t)) = parseNat t
    have hstep : parseNat ('0' :: (List.replicate m '0' ++ t)) =
        parseNat (List.replicate m '0' ++ t) := rfl
    rw [hstep, ih]

lemma natCharsAux_length_le (fuel n k : ℕ) (hk : 0 < k) (h : n < 10 ^ k) :
    (natCharsAux fuel n).length ≤ k := by
  induction fuel generalizing n k with
  | zero => simp [natCharsAux]
  | succ f ih =>
    cases n with
    | zero => simp [natCharsAux]
    | succ m =>
      rw [natCharsAux]
      rw [List.length_append, List.length_singleton]
      cases k with
      | zero => omega
      | succ k' =>
        rcases Nat.eq_zero_or_pos k' with hk0 | hk'
        · subst hk0
          have h10 : m + 1 < 10 := by simpa using h
          have hdiv : (m + 1) / 10 = 0 := by omega
          rw [hdiv]
          have hz : natCharsAux f 0 = [] := by cases f <;> rfl
          rw [hz]
          simp
        · have hpow : (10 : ℕ) ^ (k' + 1) = 10 * 10 ^ k' := by
            rw [pow_succ]
            ring
          have hm : (m + 1) / 10 < 10 ^ k' := by
            apply Nat.div_lt_of_lt_mul
            rw [← hpow]
            exact h
          have := ih ((m + 1) / 10) k' hk' hm
          omega

lemma natChars_length_le (n k : ℕ) (hk : 0 < k) (h : n < 10 ^ k) :
    (natChars n).length ≤ k := by
  unfold natChars
  by_cases h0 : n = 0
  · rw [if_pos h0]; simpa using hk
  · rw [if_neg h0]; exact natCharsAux_length_le n n k hk h

lemma padLeft_length (w : ℕ) (c : Char) (s : List Char) (h : s.length ≤ w) :
    (padLeft w c s).length = w := by
  unfold padLeft
  rw [List.length_append, List.length_replicate]
  omega

lemma padRight_length (w : ℕ) (c : Char) (s : List Char) (h : s.length ≤ w) :
    (padRight w c s).length = w := by
  unfold padRight
  rw [List.length_append, List.length_replicate]
  omega

lemma dropWhile_ws_replicate (k : ℕ) (t : List Char) :
    (List.replicate k ' ' ++ t).dropWhile isWs = t.dropWhile isWs := by
  induction k with
  | zero => rfl
  | succ m ih =>
    show ((' ' :: (List.replicate m ' ' ++ t)).dropWhile isWs) = _
    rw [List.dropWhile_cons_of_pos (by rfl), ih]

lemma dropWhile_ws_no_ws (s : List Char) (h : ∀ c ∈ s, isWs c = false) :
    s.dropWhile isWs = s := by
  cases s with
  | nil => rfl
  | cons c t =>
    rw [List.dropWhile_cons_of_neg]
    simp [h c (List.mem_cons_self c t)]

lemma stripChars_pad (a b : ℕ) (s : List Char) (hne : s ≠ [])
    (hnw : ∀ c ∈ s, isWs c = false) :
    stripChars (List.replicate a ' ' ++ s ++ List.replicate b ' ') = s := by
  unfold stripChars
  rw [List.append_assoc, dropWhile_ws_replicate]
  have h1 : (s ++ List.replicate b ' ').dropWhile isWs = s ++ List.replicate b ' ' := by
    cases s with
    | nil => exact absurd rfl hne
    | cons c t =>
      rw [List.cons_append, List.dropWhile_cons_of_neg]
      simp [hnw c (List.mem_cons_self c t)]
  rw [h1, List.reverse_append, List.reverse_replicate, dropWhile_ws_replicate]
  have h2 : s.reverse.dropWhile isWs = s.reverse := by
    apply dropWhile_ws_no_ws
    intro c hc
    exact hnw c (List.mem_reverse.mp hc)
  rw [h2, List.reverse_reverse]

lemma intChars_ne_nil (z : ℤ) : intChars z ≠ [] := by
  unfold intChars
  by_cases h : z < 0
  · rw [if_pos h]; simp
  · rw [if_neg h]; exact natChars_ne_nil _

lemma intChars_no_ws (z : ℤ) : ∀ c ∈ intChars z, isWs c = false := by
  unfold intChars
  intro c hc
  by_cases h : z < 0
  · rw [if_pos h] at hc
    rcases List.mem_cons.mp hc with h1 | h1
    · subst h1; rfl
    · obtain ⟨d, hd, rfl⟩ := natChars_digits _ c h1
      exact digitChar_not_ws d hd
  · rw [if_neg h] at hc
    obtain ⟨d, hd, rfl⟩ := natChars_digits _ c hc
    exact digitChar_not_ws d hd

lemma stripChars_formatInt (w : ℕ) (z : ℤ) :
    stripChars (formatInt w z) = intChars z := by
  unfold formatInt padLeft
  have h := stripChars_pad (w - (intChars z).length) 0 (intChars z)
    (intChars_ne_nil z) (intChars_no_ws z)
  simpa using h

lemma parseInt_formatInt (w : ℕ) (z : ℤ) : parseInt (formatInt w z) = z := by
  unfold parseInt
  rw [stripChars_formatInt]
  by_cases hz : z < 0
  · have hz' : intChars z = '-' :: natChars z.natAbs := by
      unfold intChars; rw [if_pos hz]
    rw [hz']
    rw [if_pos (by rfl)]
    show -(parseNat (natChars z.natAbs) : ℤ) = z
    rw [parseNat_natChars]
    have := Int.natAbs_of_nonneg (a := -z) (by omega)
    omega
  · have hz' : intChars z = natChars z.natAbs := by
      unfold intChars; rw [if_neg hz]
    rw [hz']
    obtain ⟨c, t, hct⟩ := List.exists_cons_of_ne_nil (natChars_ne_nil z.natAbs)
    obtain ⟨d, hd, hcd⟩ := natChars_digits z.natAbs c (by rw [hct]; simp)
    rw [hct]
    rw [if_neg (by simp [List.headD]; rw [hcd]; exact digitChar_ne_dash d hd)]
    rw [if_neg (by simp [List.headD]; rw [hcd]; exact digitChar_ne_plus d hd)]
    rw [← hct, parseNat_natChars]
    omega

lemma takeWhile_append_stop (P : Char → Bool) (s : List Char) (c : Char) (r : List Char)
    (hs : ∀ x ∈ s, P x = true) (hc : P c = false) :
    (s ++ c :: r).takeWhile P = s := by
  induction s with
  | nil =>
    rw [List.nil_append, List.takeWhile_cons_of_neg (by simp [hc])]
  | cons a t ih =>
    rw [List.cons_append, List.takeWhile_cons_of_pos (hs a (List.mem_cons_self a t))]
    rw [ih (fun x hx => hs x (List.mem_cons_of_mem a hx))]

lemma dropWhile_append_stop (P : Char → Bool) (s : List Char) (c : Char) (r : List Char)
    (hs : ∀ x ∈ s, P x = true) (hc : P c = false) :
    (s ++ c :: r).dropWhile P = c :: r := by
  induction s with
  | nil =>
    rw [List.nil_append, List.dropWhile_cons_of_neg (by simp [hc])]
  | cons a t ih =>
    rw [List.cons_append, List.dropWhile_cons_of_pos (hs a (List.mem_cons_self a t))]
    rw [ih (fun x hx => hs x (List.mem_cons_of_mem a hx))]

lemma formatFixed_eq_pad (p w : ℕ) (q : ℚ) :
    formatFixed p w q = padLeft w ' ' (fixedBody p (round (q * 10 ^ p))) := rfl

lemma fixedBody_ne_nil (p : ℕ) (n : ℤ) : fixedBody p n ≠ [] := by
  unfold fixedBody
  by_cases h : n < 0 <;> simp [h, natChars_ne_nil]

lemma padZeros_no_ws (p : ℕ) (m : ℕ) :
    ∀ c ∈ padLeft p '0' (natChars m), isWs c = false := by
  intro c hc
  unfold padLeft at hc
  rcases List.mem_append.mp hc with h1 | h1
  · rw [List.eq_of_mem_replicate h1]; rfl
  · obtain ⟨d, hd, rfl⟩ := natChars_digits m c h1
    exact digitChar_not_ws d hd

lemma fixedBody_no_ws (p : ℕ) (n : ℤ) : ∀ c ∈ fixedBody p n, isWs c = false := by
  intro c hc
  unfold fixedBody at hc
  rcases List.mem_append.mp hc with h1 | h1
  · rcases List.mem_append.mp h1 with h2 | h2
    · by_cases h : n < 0
      · rw [if_pos h] at h2
        simp only [List.mem_singleton] at h2
        subst h2; rfl
      · rw [if_neg h] at h2
        simp at h2
    · obtain ⟨d, hd, rfl⟩ := natChars_digits _ c h2
      exact digitChar_not_ws d hd
  · rcases List.mem_cons.mp h1 with h2 | h2
    · subst h2; rfl
    · exact padZeros_no_ws p (n.natAbs % 10 ^ p) c h2

lemma stripChars_formatFixed (p w : ℕ) (q : ℚ) :
    stripChars (formatFixed p w q) = fixedBody p (round (q * 10 ^ p)) := by
  rw [formatFixed_eq_pad]
  unfold padLeft
  have h := stripChars_pad (w - (fixedBody p (round (q * 10 ^ p))).length) 0
    (fixedBody p (round (q * 10 ^ p)))
    (fixedBody_ne_nil p _) (fixedBody_no_ws p _)
  simpa using h

lemma parseNat_padZeros (p m : ℕ) : parseNat (padLeft p '0' (natChars m)) = m := by
  unfold padLeft
  rw [parseNat_zeros, parseNat_natChars]

lemma div_add_mod_cast (a b : ℕ) (hb : 0 < b) :
    ((a / b : ℕ) : ℚ) + ((a % b : ℕ) : ℚ) / (b : ℚ) = (a : ℚ) / b := by
  have hb' : ((b : ℚ)) ≠ 0 := by positivity
  field_simp
  norm_cast
  rw [mul_comm]
  exact Nat.div_add_mod a b

lemma parseFloat_formatFixed (p w : ℕ) (q : ℚ) (hp : 0 < p) :
    parseFloat (formatFixed p w q) = (round (q * 10 ^ p) : ℚ) / 10 ^ p := by
  unfold parseFloat floatIntPart floatFracPart
  rw [stripChars_formatFixed]
  set n := round (q * 10 ^ p) with hn
  have hpow : (0 : ℕ) < 10 ^ p := by positivity
  have hfr_len : (natChars (n.natAbs % 10 ^ p)).length ≤ p :=
    natChars_length_le _ p hp (Nat.mod_lt _ hpow)
  have hdigits_ip : ∀ x ∈ natChars (n.natAbs / 10 ^ p), (fun c => !(c = '.')) x = true := by
    intro x hx
    obtain ⟨d, hd, rfl⟩ := natChars_digits _ x hx
    simp [digitChar_ne_dot d hd]
  have hdot : (fun c => !(c = '.')) '.' = false := by simp
  have hflen : (padLeft p '0' (natChars (n.natAbs % 10 ^ p))).length = p :=
    padLeft_length _ _ _ hfr_len
  have harith : ((n.natAbs / 10 ^ p : ℕ) : ℚ) + ((n.natAbs % 10 ^ p : ℕ) : ℚ) / 10 ^ p
      = (n.natAbs : ℚ) / 10 ^ p := by
    have := div_add_mod_cast n.natAbs (10 ^ p) hpow
    push_cast at this ⊢
    exact this
  by_cases hneg : n < 0
  · have hbody : fixedBody p n = '-' :: (natChars (n.natAbs / 10 ^ p) ++
        '.' :: padLeft p '0' (natChars (n.natAbs % 10 ^ p))) := by
      unfold fixedBody
      rw [if_pos hneg]
      rfl
    rw [hbody]
    rw [if_pos (by rfl)]
    have hss : stripSign ('-' :: (natChars (n.natAbs / 10 ^ p) ++
        '.' :: padLeft p '0' (natChars (n.natAbs % 10 ^ p)))) =
        natChars (n.natAbs / 10 ^ p) ++
          '.' :: padLeft p '0' (natChars (n.natAbs % 10 ^ p)) := by
      unfold stripSign
      rw [if_pos (by rfl)]
      rfl
    rw [hss]
    rw [takeWhile_append_stop _ _ _ _ hdigits_ip hdot]
    rw [dropWhile_append_stop _ _ _ _ hdigits_ip hdot]
    simp only [List.drop_succ_cons, List.drop_zero]
    rw [parseNat_natChars, parseNat_padZeros, hflen, harith]
    have hcast : (n.natAbs : ℚ) = -(n : ℚ) := by
      rw [Int.cast_natAbs, abs_of_neg hneg]
      push_cast
      ring
    rw [hcast]
    ring
  · have hbody : fixedBody p n = natChars (n.natAbs / 10 ^ p) ++
        '.' :: padLeft p '0' (natChars (n.natAbs % 10 ^ p)) := by
      unfold fixedBody
      rw [if_neg hneg]
      rfl
    rw [hbody]
    obtain ⟨c, t, hct⟩ := List.exists_cons_of_ne_nil (natChars_ne_nil (n.natAbs / 10 ^ p))
    obtain ⟨d, hd, hcd⟩ := natChars_digits (n.natAbs / 10 ^ p) c (by rw [hct]; simp)
    have hhead : (natChars (n.natAbs / 10 ^ p) ++
        '.' :: padLeft p '0' (natChars (n.natAbs % 10 ^ p))).headD ' ' = c := by
      rw [hct]
      rfl
    rw [if_neg (by rw [hhead, hcd]; exact digitChar_ne_dash d hd)]
    have hss : stripSign (natChars (n.natAbs / 10 ^ p) ++
        '.' :: padLeft p '0' (natChars (n.natAbs % 10 ^ p))) =
        natChars (n.natAbs / 10 ^ p) ++
          '.' :: padLeft p '0' (natChars (n.natAbs % 10 ^ p)) := by
      unfold stripSign
      rw [if_neg (by rw [hhead, hcd]; exact digitChar_ne_dash d hd)]
      rw [if_neg (by rw [hhead, hcd]; exact digitChar_ne_plus d hd)]
    rw [hss]
    rw [takeWhile_append_stop _ _ _ _ hdigits_ip hdot]
    rw [dropWhile_append_stop _ _ _ _ hdigits_ip hdot]
    simp only [List.drop_succ_cons, List.drop_zero]
    rw [parseNat_natChars, parseNat_padZeros, hflen, harith]
    have hcast : (n.natAbs : ℚ) = (n : ℚ) := by
      rw [Int.cast_natAbs, abs_of_nonneg (not_lt.mp hneg)]
    rw [hcast]
    ring

lemma round_bounds (q : ℚ) (M : ℕ) (h : |q| ≤ M) :
    -(M : ℤ) ≤ round q ∧ round q ≤ M := by
  obtain ⟨h1, h2⟩ := abs_le.mp h
  constructor
  · rw [round_eq, Int.le_floor]
    push_cast
    linarith
  · rw [round_eq]
    have hlt : (⌊q + 1 / 2⌋ : ℤ) < (M : ℤ) + 1 := by
      rw [Int.floor_lt]
      push_cast
      linarith
    omega

lemma round_natAbs_le (q : ℚ) (M : ℕ) (h : |q| ≤ M) : (round q).natAbs ≤ M := by
  obtain ⟨h1, h2⟩ := round_bounds q M h
  omega

lemma formatFixed_length (p w k M : ℕ) (q : ℚ) (hp : 0 < p) (hk : 0 < k)
    (hM : |q| ≤ M) (hMk : M < 10 ^ k) (hw : k + p + 2 ≤ w) :
    (formatFixed p w q).length = w := by
  rw [formatFixed_eq_pad]
  apply padLeft_length
  unfold fixedBody
  set n := round (q * 10 ^ p) with hn
  have hpow : (0 : ℕ) < 10 ^ p := by positivity
  have habs : |q * 10 ^ p| ≤ ((M * 10 ^ p : ℕ) : ℚ) := by
    push_cast
    rw [abs_mul, abs_of_nonneg (by positivity : (0 : ℚ) ≤ (10 : ℚ) ^ p)]
    exact mul_le_mul_of_nonneg_right hM (by positivity)
  have hna : n.natAbs ≤ M * 10 ^ p := round_natAbs_le _ _ habs
  have hdiv : n.natAbs / 10 ^ p < 10 ^ k := by
    apply Nat.div_lt_of_lt_mul
    calc n.natAbs ≤ M * 10 ^ p := hna
      _ < 10 ^ k * 10 ^ p := by
          exact (Nat.mul_lt_mul_right hpow).mpr hMk
      _ = 10 ^ p * 10 ^ k := by ring
  have hlen1 : (natChars (n.natAbs / 10 ^ p)).length ≤ k :=
    natChars_length_le _ k hk hdiv
  have hlen2 : (padLeft p '0' (natChars (n.natAbs % 10 ^ p))).length = p :=
    padLeft_length _ _ _ (natChars_length_le _ p hp (Nat.mod_lt _ hpow))
  rw [List.length_append, List.length_append, List.length_cons, hlen2]
  by_cases hneg : n < 0 <;> simp only [hneg, if_true, if_false] <;> simp <;> omega

lemma intChars_length_le_nonneg (z : ℤ) (k : ℕ) (hk : 0 < k) (h0 : 0 ≤ z)
    (h : z.natAbs < 10 ^ k) : (intChars z).length ≤ k := by
  unfold intChars
  rw [if_neg (by omega)]
  exact natChars_length_le z.natAbs k hk h

lemma formatInt_length (w : ℕ) (z : ℤ) (h : (intChars z).length ≤ w) :
    (formatInt w z).length = w := padLeft_length w ' ' _ h

lemma abs_round_div_sub_le (p : ℕ) (q : ℚ) :
    |(round (q * 10 ^ p) : ℚ) / 10 ^ p - q| ≤ 1 / (2 * 10 ^ p) := by
  have h := abs_sub_round (q * 10 ^ p)
  have hpos : (0 : ℚ) < 10 ^ p := by positivity
  have heq : (round (q * 10 ^ p) : ℚ) / 10 ^ p - q =
      ((round (q * 10 ^ p) : ℚ) - q * 10 ^ p) / 10 ^ p := by
    field_simp
    ring
  rw [heq, abs_div, abs_of_pos hpos, div_le_div_iff hpos (by positivity)]
  rw [abs_sub_comm] at h
  have h2 := mul_le_mul_of_nonneg_right h (by positivity : (0 : ℚ) ≤ 2 * 10 ^ p)
  linarith [h2]

/-! ### Fixed-column line structure lemmas -/

lemma take_append_ge {α : Type} (l1 l2 : List α) (n : ℕ) (h : l1.length ≤ n) :
    (l1 ++ l2).take n = l1 ++ l2.take (n - l1.length) := by
  induction l1 generalizing n with
  | nil => simp
  | cons c t ih =>
    cases n with
    | zero => simp at h
    | succ m => simpa using ih m (by simpa using h)

lemma pySlice_append_span (s t : List Char) (i j : ℕ) (hi : i ≤ s.length)
    (hj : s.length ≤ j) :
    pySlice (s ++ t) i j = s.drop i ++ pySlice t 0 (j - s.length) := by
  unfold pySlice
  rw [drop_append_le s t i hi]
  rw [take_append_ge _ _ _ (by rw [List.length_drop]; omega)]
  have e : j - i - (s.drop i).length = j - s.length - 0 := by
    rw [List.length_drop]
    omega
  rw [e, List.drop_zero]

lemma pySlice_skip (f rest : List Char) (w i j : ℕ) (hw : f.length = w) (hi : w ≤ i) :
    pySlice (f ++ rest) i j = pySlice rest (i - w) (j - w) := by
  subst hw
  exact pySlice_append_right f rest i j hi

lemma pySlice_field (pre f rest : List Char) (i j : ℕ)
    (hpre : pre.length = i) (hf : f.length = j - i) :
    pySlice (pre ++ (f ++ rest)) i j = f := by
  rw [pySlice_append_right pre (f ++ rest) i j (by omega)]
  rw [hpre, Nat.sub_self]
  exact pySlice_exact f rest (j - i) hf

lemma pySlice_length_le (l : List Char) (i j : ℕ) : (pySlice l i j).length ≤ j - i := by
  unfold pySlice
  simp [List.length_take]

lemma box_cols (fs : List (List Char)) (tail : List Char)
    (hlen : ∀ f ∈ fs, f.length = 10) (k : ℕ) (hk : k < fs.length) :
    pySlice (fs.flatten ++ tail) (10 * k) (10 * (k + 1)) = fs.getD k [] := by
  induction fs generalizing k with
  | nil => simp at hk
  | cons f rest ih =>
    cases k with
    | zero =>
      rw [List.flatten_cons, List.append_assoc]
      have h10 : f.length = 10 := hlen f (List.mem_cons_self f rest)
      have := pySlice_exact f (rest.flatten ++ tail) 10 h10
      simpa using this
    | succ j =>
      rw [List.flatten_cons, List.append_assoc]
      have h10 : f.length = 10 := hlen f (List.mem_cons_self f rest)
      rw [pySlice_skip f _ 10 _ _ h10 (by omega)]
      have e1 : 10 * (j + 1) - 10 = 10 * j := by omega
      have e2 : 10 * (j + 1 + 1) - 10 = 10 * (j + 1) := by omega
      rw [e1, e2]
      rw [ih (fun g hg => hlen g (List.mem_cons_of_mem f hg)) j (by simpa using hk)]
      rfl

lemma mapM_eq_some_map {α β : Type} (l : List α) (f : α → Option β) (g : α → β)
    (h : ∀ x ∈ l, f x = some (g x)) : l.mapM f = some (l.map g) := by
  induction l with
  | nil => rfl
  | cons a t ih =>
    rw [List.mapM_cons, h a (List.mem_cons_self a t),
      ih (fun x hx => h x (List.mem_cons_of_mem a hx))]
    rfl

lemma mem_enumFrom_mem {α : Type} (l : List α) (n : ℕ) (x : ℕ × α)
    (h : x ∈ l.enumFrom n) : x.2 ∈ l := by
  induction l generalizing n with
  | nil => simp at h
  | cons a t ih =>
    rw [List.enumFrom_cons] at h
    rcases List.mem_cons.mp h with h1 | h1
    · subst h1
      simp
    · exact List.mem_cons_of_mem _ (ih (n + 1) h1)

lemma enumFrom_getD {α : Type} (l : List α) (n i : ℕ) (d : α) (h : i < l.length) :
    (l.enumFrom n).getD i (0, d) = (n + i, l.getD i d) := by
  induction l generalizing n i with
  | nil => simp at h
  | cons a t ih =>
    cases i with
    | zero => simp [List.enumFrom_cons]
    | succ j =>
      rw [List.enumFrom_cons]
      simp only [List.getD_cons_succ]
      rw [ih (n + 1) j (by simpa using h)]
      congr 1
      omega

lemma enumFrom_length {α : Type} (l : List α) (n : ℕ) :
    (l.enumFrom n).length = l.length := by
  induction l generalizing n with
  | nil => rfl
  | cons a t ih =>
    rw [List.enumFrom_cons]
    simp [ih]

lemma range_map_eq_map {α β : Type} (l : List α) (g : ℕ → β) (f : α → β) (d : α)
    (he : ∀ i, i < l.length → g i = f (l.getD i d)) :
    (List.range l.length).map g = l.map f := by
  induction l generalizing g with
  | nil => rfl
  | cons a t ih =>
    rw [List.length_cons, List.range_succ_eq_map, List.map_cons, List.map_cons,
      List.map_map]
    congr 1
    · exact he 0 (by simp)
    · exact ih (g ∘ Nat.succ) (fun i hi => by
        have := he (i + 1) (by simpa using hi)
        simpa using this)

lemma drop_one_replicate_append (k : ℕ) (c : Char) (s : List Char) (hk : 0 < k) :
    (List.replicate k c ++ s).drop 1 = List.replicate (k - 1) c ++ s := by
  cases k with
  | zero => omega
  | succ m =>
    rw [List.replicate_succ]
    simp

lemma take_one_replicate_append (k : ℕ) (c : Char) (s : List Char) (hk : 0 < k) :
    (List.replicate k c ++ s).take 1 = [c] := by
  cases k with
  | zero => omega
  | succ m =>
    rw [List.replicate_succ]
    simp

/-! ### Claim C4 -/

lemma write_gro_box_line_eq (v : Fin 3 → Fin 3 → ℚ) :
    write_gro_box_line v =
      [formatFixed 6 10 (v 0 0), formatFixed 6 10 (v 1 1), formatFixed 6 10 (v 2 2),
       formatFixed 6 10 (v 0 1), formatFixed 6 10 (v 2 0), formatFixed 6 10 (v 1 0),
       formatFixed 6 10 (v 0 2), formatFixed 6 10 (v 1 2),
       formatFixed 6 10 (v 2 0)].flatten ++ ['\n'] := by
  unfold write_gro_box_line
  simp [List.append_assoc]

lemma box_line_values_eq (v : Fin 3 → Fin 3 → ℚ) (hv : ∀ i j, |v i j| ≤ (99 : ℚ)) :
    box_line_values (write_gro_box_line v) =
      [roundDec 6 (v 0 0), roundDec 6 (v 1 1), roundDec 6 (v 2 2),
       roundDec 6 (v 0 1), roundDec 6 (v 2 0), roundDec 6 (v 1 0),
       roundDec 6 (v 0 2), roundDec 6 (v 1 2), roundDec 6 (v 2 0)] := by
  have hlen : ∀ i j, (formatFixed 6 10 (v i j)).length = 10 := fun i j =>
    formatFixed_length 6 10 2 99 (v i j) (by omega) (by omega)
      (by exact_mod_cast hv i j) (by norm_num) (by omega)
  have hfs : ∀ f ∈ [formatFixed 6 10 (v 0 0), formatFixed 6 10 (v 1 1),
      formatFixed 6 10 (v 2 2), formatFixed 6 10 (v 0 1), formatFixed 6 10 (v 2 0),
      formatFixed 6 10 (v 1 0), formatFixed 6 10 (v 0 2), formatFixed 6 10 (v 1 2),
      formatFixed 6 10 (v 2 0)], f.length = 10 := by
    intro f hf
    simp only [List.mem_cons, List.not_mem_nil, or_false] at hf
    rcases hf with rfl | rfl | rfl | rfl | rfl | rfl | rfl | rfl | rfl <;> apply hlen
  unfold box_line_values
  rw [write_gro_box_line_eq]
  have hrange : List.range 9 = [0, 1, 2, 3, 4, 5, 6, 7, 8] := rfl
  rw [hrange]
  simp only [List.map_cons, List.map_nil]
  rw [box_cols _ _ hfs 0 (by norm_num), box_cols _ _ hfs 1 (by norm_num),
    box_cols _ _ hfs 2 (by norm_num), box_cols _ _ hfs 3 (by norm_num),
    box_cols _ _ hfs 4 (by norm_num), box_cols _ _ hfs 5 (by norm_num),
    box_cols _ _ hfs 6 (by norm_num), box_cols _ _ hfs 7 (by norm_num),
    box_cols _ _ hfs 8 (by norm_num)]
  simp only [List.getD_cons_zero, List.getD_cons_succ]
  rw [parseFloat_formatFixed 6 10 (v 0 0) (by omega),
    parseFloat_formatFixed 6 10 (v 1 1) (by omega),
    parseFloat_formatFixed 6 10 (v 2 2) (by omega),
    parseFloat_formatFixed 6 10 (v 0 1) (by omega),
    parseFloat_formatFixed 6 10 (v 2 0) (by omega),
    parseFloat_formatFixed 6 10 (v 1 0) (by omega),
    parseFloat_formatFixed 6 10 (v 0 2) (by omega),
    parseFloat_formatFixed 6 10 (v 1 2) (by omega)]
  rfl

/-- C4 (amended): the box-vector line written by `write_gro` holds exactly 9
width-10 values: the 3 diagonal terms, then the off-diagonal slots in the
order (0,1), (2,0), (1,0), (0,2), (1,2), (2,0) — the (2,0) term is written
twice and the (2,1) term never — each value being the written fixed-point
rounding of the cell entry (within 5·10⁻⁷ of it). -/
theorem C4_box_line_encoding (v : Fin 3 → Fin 3 → ℚ) (hv : ∀ i j, |v i j| ≤ (99 : ℚ)) :
    (write_gro_box_line v).length = 91 ∧
    box_line_values (write_gro_box_line v) =
      [roundDec 6 (v 0 0), roundDec 6 (v 1 1), roundDec 6 (v 2 2),
       roundDec 6 (v 0 1), roundDec 6 (v 2 0), roundDec 6 (v 1 0),
       roundDec 6 (v 0 2), roundDec 6 (v 1 2), roundDec 6 (v 2 0)] ∧
    ∀ i j, |roundDec 6 (v i j) - v i j| ≤ 1 / 2000000 := by
  have hlen : ∀ i j, (formatFixed 6 10 (v i j)).length = 10 := fun i j =>
    formatFixed_length 6 10 2 99 (v i j) (by omega) (by omega)
      (by exact_mod_cast hv i j) (by norm_num) (by omega)
  refine ⟨?_, box_line_values_eq v hv, fun i j => ?_⟩
  · rw [write_gro_box_line_eq]
    simp [hlen]
  · have h := abs_round_div_sub_le 6 (v i j)
    unfold roundDec
    calc |(round (v i j * 10 ^ 6) : ℚ) / 10 ^ 6 - v i j| ≤ 1 / (2 * 10 ^ 6) := h
      _ = 1 / 2000000 := by norm_num

/-- Witness for C4 at the concrete distinct-entry box matrix. -/
theorem C4_box_line_encoding_witness :
    box_line_values (write_gro_box_line exBoxV) =
      [roundDec 6 (exBoxV 0 0), roundDec 6 (exBoxV 1 1), roundDec 6 (exBoxV 2 2),
       roundDec 6 (exBoxV 0 1), roundDec 6 (exBoxV 2 0), roundDec 6 (exBoxV 1 0),
       roundDec 6 (exBoxV 0 2), roundDec 6 (exBoxV 1 2), roundDec 6 (exBoxV 2 0)] :=
  (C4_box_line_encoding exBoxV (by
    intro i j
    fin_cases i <;> fin_cases j <;> norm_num [exBoxV])).2.1

/-- Counterexample to C4 as stated: for the box matrix with entries
`v i j = 3·i + j` the written line's nine parsed values are
[0, 4, 8, 1, 6, 3, 2, 5, 6]: the off-diagonal entry `v 2 1 = 7` never appears,
and `v 2 0 = 6` appears twice, so the final 6 values are not the 6 distinct
off-diagonal terms. -/
theorem C4_box_line_encoding_cex :
    box_line_values (write_gro_box_line exBoxV) = [0, 4, 8, 1, 6, 3, 2, 5, 6] ∧
    exBoxV 2 1 = 7 ∧
    (7 : ℚ) ∉ box_line_values (write_gro_box_line exBoxV) ∧
    (box_line_values (write_gro_box_line exBoxV)).count 6 = 2 := by
  have hv : ∀ i j, |exBoxV i j| ≤ (99 : ℚ) := by
    intro i j
    fin_cases i <;> fin_cases j <;> norm_num [exBoxV]
  have h := box_line_values_eq exBoxV hv
  have hvals : box_line_values (write_gro_box_line exBoxV) =
      [0, 4, 8, 1, 6, 3, 2, 5, 6] := by
    rw [h]
    norm_num [exBoxV, roundDec, round_eq]
  refine ⟨hvals, by norm_num [exBoxV], ?_, ?_⟩
  · rw [hvals]
    norm_num
  · rw [hvals]
    norm_num [List.count_cons]

/-! ### Claim C1 -/

lemma gro_line_assoc (rn sn : ℤ) (rm am : List Char) (x y z : ℚ) :
    gro_line rn rm am sn x y z =
      formatInt 5 rn ++ (formatStr 5 rm ++ (formatStrRight 5 am ++ (formatInt 5 sn ++
        (formatFixed 3 8 x ++ (formatFixed 3 8 y ++ (formatFixed 3 8 z ++ ['\n'])))))) := by
  unfold gro_line
  simp [List.append_assoc]

lemma gro_line_slice_x (rn sn : ℤ) (rm am : List Char) (x y z : ℚ)
    (h1 : (formatInt 5 rn).length = 5) (h2 : (formatStr 5 rm).length = 5)
    (h3 : (formatStrRight 5 am).length = 5) (h4 : (formatInt 5 sn).length = 5)
    (h5 : (formatFixed 3 8 x).length = 8) :
    pySlice (gro_line rn rm am sn x y z) 20 28 = formatFixed 3 8 x := by
  rw [gro_line_assoc]
  rw [pySlice_skip _ _ 5 _ _ h1 (by omega), pySlice_skip _ _ 5 _ _ h2 (by omega),
    pySlice_skip _ _ 5 _ _ h3 (by omega), pySlice_skip _ _ 5 _ _ h4 (by omega)]
  norm_num
  exact pySlice_exact _ _ 8 h5

lemma gro_line_slice_y (rn sn : ℤ) (rm am : List Char) (x y z : ℚ)
    (h1 : (formatInt 5 rn).length = 5) (h2 : (formatStr 5 rm).length = 5)
    (h3 : (formatStrRight 5 am).length = 5) (h4 : (formatInt 5 sn).length = 5)
    (h5 : (formatFixed 3 8 x).length = 8) (h6 : (formatFixed 3 8 y).length = 8) :
    pySlice (gro_line rn rm am sn x y z) 28 36 = formatFixed 3 8 y := by
  rw [gro_line_assoc]
  rw [pySlice_skip _ _ 5 _ _ h1 (by omega), pySlice_skip _ _ 5 _ _ h2 (by omega),
    pySlice_skip _ _ 5 _ _ h3 (by omega), pySlice_skip _ _ 5 _ _ h4 (by omega),
    pySlice_skip _ _ 8 _ _ h5 (by omega)]
  norm_num
  exact pySlice_exact _ _ 8 h6

lemma gro_line_slice_z (rn sn : ℤ) (rm am : List Char) (x y z : ℚ)
    (h1 : (formatInt 5 rn).length = 5) (h2 : (formatStr 5 rm).length = 5)
    (h3 : (formatStrRight 5 am).length = 5) (h4 : (formatInt 5 sn).length = 5)
    (h5 : (formatFixed 3 8 x).length = 8) (h6 : (formatFixed 3 8 y).length = 8)
    (h7 : (formatFixed 3 8 z).length = 8) :
    pySlice (gro_line rn rm am sn x y z) 36 44 = formatFixed 3 8 z := by
  rw [gro_line_assoc]
  rw [pySlice_skip _ _ 5 _ _ h1 (by omega), pySlice_skip _ _ 5 _ _ h2 (by omega),
    pySlice_skip _ _ 5 _ _ h3 (by omega), pySlice_skip _ _ 5 _ _ h4 (by omega),
    pySlice_skip _ _ 8 _ _ h5 (by omega), pySlice_skip _ _ 8 _ _ h6 (by omega)]
  norm_num
  exact pySlice_exact _ _ 8 h7

lemma gro_line_slice_name (rn sn : ℤ) (rm am : List Char) (x y z : ℚ)
    (h1 : (formatInt 5 rn).length = 5) (h2 : (formatStr 5 rm).length = 5)
    (hm1 : am ≠ []) (hm4 : am.length ≤ 4) (hnw : ∀ c ∈ am, isWs c = false)
    (hser : (intChars sn).length ≤ 4) :
    stripChars (pySlice (gro_line rn rm am sn x y z) 11 16) = am := by
  rw [gro_line_assoc]
  rw [pySlice_skip _ _ 5 _ _ h1 (by omega), pySlice_skip _ _ 5 _ _ h2 (by omega)]
  norm_num
  have h3len : (formatStrRight 5 am).length = 5 := padLeft_length _ _ _ (by omega)
  rw [pySlice_append_span _ _ 1 6 (by omega) (by omega)]
  have hstep1 : (formatStrRight 5 am).drop 1 =
      List.replicate (5 - am.length - 1) ' ' ++ am := by
    unfold formatStrRight padLeft
    exact drop_one_replicate_append _ ' ' am (by omega)
  have hstep2 : pySlice (formatInt 5 sn ++
      (formatFixed 3 8 x ++ (formatFixed 3 8 y ++ (formatFixed 3 8 z ++ ['\n'])))) 0
      (6 - (formatStrRight 5 am).length) = [' '] := by
    rw [h3len]
    rw [pySlice_append_left _ _ 0 1 (by rw [formatInt_length 5 sn (by omega)]; omega)]
    unfold pySlice
    rw [List.drop_zero]
    unfold formatInt padLeft
    exact take_one_replicate_append _ ' ' _ (by omega)
  rw [hstep1, hstep2]
  have hsh : List.replicate (5 - am.length - 1) ' ' ++ am ++ [' '] =
      List.replicate (5 - am.length - 1) ' ' ++ am ++ List.replicate 1 ' ' := rfl
  rw [List.append_assoc] at hsh ⊢
  rw [hsh]
  exact stripChars_pad (5 - am.length - 1) 1 am hm1 hnw

lemma gro_line_parse (count : ℕ) (a : GroAtom)
    (hresno : a.resIndex + 1 ≤ 99999) (hresnm : (gro_written_resname a).length ≤ 5)
    (hcnt : count + 1 ≤ 9999)
    (hnm1 : gro_written_name a ≠ []) (hnm4 : (gro_written_name a).length ≤ 4)
    (hnww : ∀ c ∈ gro_written_name a, isWs c = false)
    (hx : |a.x| ≤ (999 : ℚ)) (hy : |a.y| ≤ (999 : ℚ)) (hz : |a.z| ≤ (999 : ℚ)) :
    parseFloat (pySlice (gro_written_line count a) 20 28) = roundDec 3 a.x ∧
    parseFloat (pySlice (gro_written_line count a) 28 36) = roundDec 3 a.y ∧
    parseFloat (pySlice (gro_written_line count a) 36 44) = roundDec 3 a.z ∧
    stripChars (pySlice (gro_written_line count a) 11 16) = gro_written_name a := by
  have hser : (intChars ((count : ℤ) + 1)).length ≤ 4 :=
    intChars_length_le_nonneg _ 4 (by omega) (by omega) (by omega)
  have h1 : (formatInt 5 ((a.resIndex : ℤ) + 1)).length = 5 :=
    formatInt_length 5 _ (le_trans (intChars_length_le_nonneg _ 5 (by omega) (by omega)
      (by omega)) (by omega))
  have h2 : (formatStr 5 (gro_written_resname a)).length = 5 :=
    padRight_length _ _ _ hresnm
  have h3 : (formatStrRight 5 (gro_written_name a)).length = 5 :=
    padLeft_length _ _ _ (by omega)
  have h4 : (formatInt 5 ((count : ℤ) + 1)).length = 5 :=
    formatInt_length 5 _ (by omega)
  have h5 : (formatFixed 3 8 a.x).length = 8 :=
    formatFixed_length 3 8 3 999 a.x (by omega) (by omega) (by exact_mod_cast hx)
      (by norm_num) (by omega)
  have h6 : (formatFixed 3 8 a.y).length = 8 :=
    formatFixed_length 3 8 3 999 a.y (by omega) (by omega) (by exact_mod_cast hy)
      (by norm_num) (by omega)
  have h7 : (formatFixed 3 8 a.z).length = 8 :=
    formatFixed_length 3 8 3 999 a.z (by omega) (by omega) (by exact_mod_cast hz)
      (by norm_num) (by omega)
  unfold gro_written_line
  refine ⟨?_, ?_, ?_, ?_⟩
  · rw [gro_line_slice_x _ _ _ _ _ _ _ h1 h2 h3 h4 h5]
    exact parseFloat_formatFixed 3 8 a.x (by omega)
  · rw [gro_line_slice_y _ _ _ _ _ _ _ h1 h2 h3 h4 h5 h6]
    exact parseFloat_formatFixed 3 8 a.y (by omega)
  · rw [gro_line_slice_z _ _ _ _ _ _ _ h1 h2 h3 h4 h5 h6 h7]
    exact parseFloat_formatFixed 3 8 a.z (by omega)
  · exact gro_line_slice_name _ _ _ _ _ _ _ h1 h2 hnm1 hnm4 hnww hser

lemma gro_atom_line_eq (count : ℕ) (a : GroAtom)
    (hw : a.resName = "HOH".toList → (waterMap a.name).isSome) :
    gro_atom_line count a = some (gro_written_line count a) := by
  unfold gro_atom_line gro_written_line gro_written_resname gro_written_name
  by_cases h : a.resName = "HOH".toList
  · obtain ⟨nm, hnm⟩ := Option.isSome_iff_exists.mp (hw h)
    rw [if_pos h, if_pos h, if_pos h, hnm]
    simp
  · rw [if_neg h, if_neg h, if_neg h]

lemma write_gro_eq (atoms : List GroAtom) (v : Fin 3 → Fin 3 → ℚ)
    (hw : ∀ a ∈ atoms, a.resName = "HOH".toList → (waterMap a.name).isSome) :
    write_gro atoms v = some (("This is a .gro file\n".toList) ::
      (natChars atoms.length ++ ['\n']) ::
      (atoms.enum.map (fun ci => gro_written_line ci.1 ci.2) ++
        [write_gro_box_line v])) := by
  unfold write_gro
  rw [mapM_eq_some_map atoms.enum (fun ci => gro_atom_line ci.1 ci.2)
    (fun ci => gro_written_line ci.1 ci.2)
    (fun ci hci => gro_atom_line_eq ci.1 ci.2 (hw ci.2 (mem_enumFrom_mem atoms 0 ci hci)))]
  rfl

/-- C1 (amended): writing a single frame with `write_gro` and re-parsing with
`read_gro_coords` yields the atom count, positions equal to 10 times the
written 3-decimal rounding of the originals (the reader's ×10 unit
conversion; the rounding is within 0.0005 of the original coordinate), and
atom names with the water renaming applied in the writing direction (`HOH`
atoms `H1`/`H2`/`O` read back as `HW1`/`HW2`/`OW`); the reader's identity
output carries atom names only — no residue names are returned. -/
theorem C1_gro_round_trip (atoms : List GroAtom) (v : Fin 3 → Fin 3 → ℚ)
    (hcnt : atoms.length ≤ 9999)
    (hres : ∀ a ∈ atoms, a.resIndex + 1 ≤ 99999 ∧ a.resName.length ≤ 5)
    (hnm : ∀ a ∈ atoms, (a.resName = "HOH".toList → (waterMap a.name).isSome) ∧
      gro_written_name a ≠ [] ∧ (gro_written_name a).length ≤ 4 ∧
      ∀ c ∈ gro_written_name a, isWs c = false)
    (hxyz : ∀ a ∈ atoms, |a.x| ≤ (999 : ℚ) ∧ |a.y| ≤ (999 : ℚ) ∧ |a.z| ≤ (999 : ℚ)) :
    (write_gro atoms v).isSome ∧
    (read_gro_coords ((write_gro atoms v).getD [])).2.2.1 = atoms.length ∧
    (read_gro_coords ((write_gro atoms v).getD [])).1 = atoms.map (fun a =>
      (roundDec 3 a.x * 10, roundDec 3 a.y * 10, roundDec 3 a.z * 10)) ∧
    (read_gro_coords ((write_gro atoms v).getD [])).2.1 = atoms.map gro_written_name ∧
    ∀ a ∈ atoms, |roundDec 3 a.x - a.x| ≤ 1 / 2000 ∧
      |roundDec 3 a.y - a.y| ≤ 1 / 2000 ∧ |roundDec 3 a.z - a.z| ≤ 1 / 2000 := by
  have hW := write_gro_eq atoms v (fun a ha => (hnm a ha).1)
  rw [hW]
  simp only [Option.getD_some, Option.isSome_some, true_and]
  set dA : GroAtom := ⟨0, [], [], 0, 0, 0⟩ with hdA
  set body := atoms.enum.map (fun ci => gro_written_line ci.1 ci.2) with hbody
  set F := ("This is a .gro file\n".toList) :: (natChars atoms.length ++ ['\n']) ::
    (body ++ [write_gro_box_line v]) with hF
  have hblen : body.length = atoms.length := by
    rw [hbody, List.length_map]
    show (atoms.enumFrom 0).length = atoms.length
    exact enumFrom_length atoms 0
  have hFlen : F.length = atoms.length + 3 := by
    rw [hF]
    simp [hblen]
  have hline : ∀ i, i < atoms.length →
      F.getD (i + 2) [] = gro_written_line i (atoms.getD i dA) := by
    intro i hi
    show (body ++ [write_gro_box_line v]).getD i [] = _
    rw [getD_append_lt _ _ i [] (by omega)]
    rw [hbody]
    rw [getD_map _ _ i [] (0, dA) (by
      show i < (atoms.enumFrom 0).length
      rw [enumFrom_length]
      exact hi)]
    show gro_written_line ((atoms.enumFrom 0).getD i (0, dA)).1
      ((atoms.enumFrom 0).getD i (0, dA)).2 = _
    rw [enumFrom_getD atoms 0 i dA hi]
    norm_num
  have hresnm : ∀ a ∈ atoms, (gro_written_resname a).length ≤ 5 := by
    intro a ha
    unfold gro_written_resname
    by_cases h : a.resName = "HOH".toList
    · rw [if_pos h]
      decide
    · rw [if_neg h]
      exact (hres a ha).2
  have hfacts : ∀ i, i < atoms.length →
      parseFloat (pySlice (F.getD (i + 2) []) 20 28) = roundDec 3 (atoms.getD i dA).x ∧
      parseFloat (pySlice (F.getD (i + 2) []) 28 36) = roundDec 3 (atoms.getD i dA).y ∧
      parseFloat (pySlice (F.getD (i + 2) []) 36 44) = roundDec 3 (atoms.getD i dA).z ∧
      stripChars (pySlice (F.getD (i + 2) []) 11 16) =
        gro_written_name (atoms.getD i dA) := by
    intro i hi
    have hmem : atoms.getD i dA ∈ atoms := getD_mem atoms i dA hi
    rw [hline i hi]
    exact gro_line_parse i (atoms.getD i dA) (hres _ hmem).1 (hresnm _ hmem)
      (by omega) (hnm _ hmem).2.1 (hnm _ hmem).2.2.1 (hnm _ hmem).2.2.2
      (hxyz _ hmem).1 (hxyz _ hmem).2.1 (hxyz _ hmem).2.2
  have hcount : F.length - 2 - 1 = atoms.length := by omega
  refine ⟨hcount, ?_, ?_, fun a ha => ?_⟩
  · show (List.range (F.length - 2 - 1)).map _ = _
    rw [hcount]
    refine range_map_eq_map atoms _ _ dA (fun i hi => ?_)
    have h := hfacts i hi
    show (parseFloat (pySlice (F.getD (i + 2) []) 20 28) * 10,
      parseFloat (pySlice (F.getD (i + 2) []) 28 36) * 10,
      parseFloat (pySlice (F.getD (i + 2) []) 36 44) * 10) = _
    rw [h.1, h.2.1, h.2.2.1]
  · show (List.range (F.length - 2 - 1)).map _ = _
    rw [hcount]
    refine range_map_eq_map atoms _ _ dA (fun i hi => ?_)
    show stripChars (pySlice (F.getD (i + 2) []) 11 16) = _
    exact (hfacts i hi).2.2.2
  · have hx := abs_round_div_sub_le 3 a.x
    have hy := abs_round_div_sub_le 3 a.y
    have hz := abs_round_div_sub_le 3 a.z
    norm_num at hx hy hz
    exact ⟨by unfold roundDec; norm_num; exact hx, by unfold roundDec; norm_num; exact hy,
      by unfold roundDec; norm_num; exact hz⟩

theorem C1_gro_round_trip_witness :
    ([(⟨0, "RES".toList, "CA".toList, 1, 0, 0⟩ : GroAtom),
      ⟨1, "HOH".toList, "H1".toList, 1/2, -1/4, 2⟩] : List GroAtom).length ≤ 9999 ∧
    (write_gro [(⟨0, "RES".toList, "CA".toList, 1, 0, 0⟩ : GroAtom),
      ⟨1, "HOH".toList, "H1".toList, 1/2, -1/4, 2⟩] exBoxV).isSome ∧
    (read_gro_coords ((write_gro [(⟨0, "RES".toList, "CA".toList, 1, 0, 0⟩ : GroAtom),
      ⟨1, "HOH".toList, "H1".toList, 1/2, -1/4, 2⟩] exBoxV).getD [])).2.1 =
      ["CA".toList, "HW1".toList] := by
  have h := C1_gro_round_trip
    [(⟨0, "RES".toList, "CA".toList, 1, 0, 0⟩ : GroAtom),
      ⟨1, "HOH".toList, "H1".toList, 1/2, -1/4, 2⟩] exBoxV
    (by decide)
    (by intro a ha; fin_cases ha <;> exact ⟨by decide, by decide⟩)
    (by intro a ha; fin_cases ha <;>
      exact ⟨by decide, by decide, by decide, by decide⟩)
    (by intro a ha; fin_cases ha <;> refine ⟨?_, ?_, ?_⟩ <;>
      rw [abs_le] <;> constructor <;> norm_num)
  refine ⟨by decide, h.1, ?_⟩
  rw [h.2.2.2.1]
  decide

theorem C1_gro_round_trip_cex :
    (read_gro_coords ((write_gro [(⟨0, "RES".toList, "CA".toList, 1, 0, 0⟩ : GroAtom)]
        (fun _ _ => 0)).getD [])).1 = [((10 : ℚ), (0 : ℚ), (0 : ℚ))] ∧
    ¬(|(10 : ℚ) - 1| ≤ 1 / 2000) := by
  constructor
  · have hW := write_gro_eq [(⟨0, "RES".toList, "CA".toList, 1, 0, 0⟩ : GroAtom)]
      (fun _ _ => 0)
      (by intro a ha; fin_cases ha; intro hcontra; exact absurd hcontra (by decide))
    rw [hW, Option.getD_some]
    show [(parseFloat (pySlice
        (gro_written_line 0 (⟨0, "RES".toList, "CA".toList, 1, 0, 0⟩ : GroAtom)) 20 28) * 10,
      parseFloat (pySlice
        (gro_written_line 0 (⟨0, "RES".toList, "CA".toList, 1, 0, 0⟩ : GroAtom)) 28 36) * 10,
      parseFloat (pySlice
        (gro_written_line 0 (⟨0, "RES".toList, "CA".toList, 1, 0, 0⟩ : GroAtom)) 36 44) * 10)]
      = [((10 : ℚ), (0 : ℚ), (0 : ℚ))]
    have h := gro_line_parse 0 (⟨0, "RES".toList, "CA".toList, 1, 0, 0⟩ : GroAtom)
      (by decide) (by decide) (by decide) (by decide) (by decide) (by decide)
      (by norm_num) (by norm_num) (by norm_num)
    rw [h.1, h.2.1, h.2.2.1]
    norm_num [roundDec, round_eq]
  · norm_num

/-- C3 (corrected): `last_frame` on a filename not ending in `.trr`/`.xtc`
prints the incompatible-filetype message and yields no result; on a
`.trr`/`.xtc` name it returns the last frame's position array ONLY — the
1-based residue numbers and residue names are computed at lines 380-381 but
discarded, so the result depends only on the frames, never on the residue
data. -/
theorem C3_last_frame_filetype (trr : List Char) (t t' : Traj)
    (hframes : t.frames = t'.frames) :
    ((endsWithChars trr (".trr".toList) || endsWithChars trr (".xtc".toList)) = false →
      last_frame trr t = (["Incompatible Filetype".toList], none)) ∧
    ((endsWithChars trr (".trr".toList) || endsWithChars trr (".xtc".toList)) = true →
      last_frame trr t = ([], t.frames.getLast?)) ∧
    last_frame trr t = last_frame trr t' ∧
    last_frame_res_no t = t.atoms.map (fun a => a.resIndex + 1) ∧
    last_frame_res_name t = t.atoms.map (fun a => a.resName) := by
  refine ⟨fun h => ?_, fun h => ?_, ?_, rfl, rfl⟩
  · unfold last_frame
    rw [h]
    rfl
  · unfold last_frame
    rw [h]
    rfl
  · unfold last_frame
    rw [hframes]

theorem C3_last_frame_filetype_witness :
    ((⟨[⟨0, "AAA".toList⟩], [[((1 : ℚ), (2 : ℚ), (3 : ℚ))]]⟩ : Traj).frames =
      (⟨[⟨1, "BBB".toList⟩], [[(1, 2, 3)]]⟩ : Traj).frames) ∧
    last_frame "a.xtc".toList ⟨[⟨0, "AAA".toList⟩], [[(1, 2, 3)]]⟩ =
      ([], some [((1 : ℚ), (2 : ℚ), (3 : ℚ))]) ∧
    last_frame "a.gro".toList ⟨[⟨0, "AAA".toList⟩], [[(1, 2, 3)]]⟩ =
      (["Incompatible Filetype".toList], none) := by
  have h := C3_last_frame_filetype "a.xtc".toList
    ⟨[⟨0, "AAA".toList⟩], [[(1, 2, 3)]]⟩ ⟨[⟨1, "BBB".toList⟩], [[(1, 2, 3)]]⟩ rfl
  have h2 := C3_last_frame_filetype "a.gro".toList
    ⟨[⟨0, "AAA".toList⟩], [[(1, 2, 3)]]⟩ ⟨[⟨1, "BBB".toList⟩], [[(1, 2, 3)]]⟩ rfl
  exact ⟨rfl, by rw [h.2.1 (by decide)]; rfl, h2.1 (by decide)⟩

/-- C3 counterexample to the claim as stated: two trajectories that share
frames but differ in residue names produce identical `last_frame` results, so
the returned value cannot contain the residue names (or numbers) the claim
says it carries. -/
theorem C3_last_frame_cex :
    last_frame ".trr".toList ⟨[⟨0, "AAA".toList⟩], [[((1 : ℚ), (2 : ℚ), (3 : ℚ))]]⟩ =
      last_frame ".trr".toList ⟨[⟨0, "BBB".toList⟩], [[(1, 2, 3)]]⟩ ∧
    last_frame_res_name ⟨[⟨0, "AAA".toList⟩], [[((1 : ℚ), (2 : ℚ), (3 : ℚ))]]⟩ ≠
      last_frame_res_name ⟨[⟨0, "BBB".toList⟩], [[(1, 2, 3)]]⟩ ∧
    last_frame ".trr".toList ⟨[⟨0, "AAA".toList⟩], [[(1, 2, 3)]]⟩ =
      ([], some [((1 : ℚ), (2 : ℚ), (3 : ℚ))]) := by
  refine ⟨rfl, ?_, rfl⟩
  unfold last_frame_res_name
  decide

/-- C2 (corrected): with every section header located, `write_assembly` emits
each located record once per copy in section order, and omits the
virtual-site chunk when cross-linking is off; but an atoms record carries TWO
changing integer fields (the serial is rebuilt as `i*nr + k + 1` from the
record's position `k`, and the charge-group field `[29:34)` is shifted by
`i*nr`), and a bonds record's non-index remainder is the slice
`[14:len(atoms_line_k))` — truncated to the length of the matching
atoms-section line rather than passed through; angle records shift exactly
their three index fields and pass the remainder through unchanged. -/
theorem C2_assembly_index_shift (a : List (List Char)) (xlink : Bool) (no_mon : ℕ)
    (ai bi pri ani dpi dii : ℕ)
    (ha : findSection a atomsPat = some ai)
    (hb : findSection a bondsPat = some bi)
    (hpr : findSection a pairsPat = some pri)
    (han : findSection a anglesPat = some ani)
    (hdp : findSection a dihPPat = some dpi)
    (hdi : findSection a dihIPat = some dii)
    (hx : xlink = false)
    (nr i k la : ℕ) (l lb lg : List Char)
    (hserial : i * nr + k + 1 ≤ 99999)
    (hcg0 : 0 ≤ parseInt (pySlice l 29 34))
    (hcg : (i * nr : ℤ) + parseInt (pySlice l 29 34) ≤ 99999)
    (hb10 : 0 ≤ parseInt (pySlice lb 0 6))
    (hb1 : (i * nr : ℤ) + parseInt (pySlice lb 0 6) ≤ 999999)
    (hb20 : 0 ≤ parseInt (pySlice lb 6 14))
    (hb2 : (i * nr : ℤ) + parseInt (pySlice lb 6 14) ≤ 9999999)
    (hg10 : 0 ≤ parseInt (pySlice lg 0 6))
    (hg1 : (i * nr : ℤ) + parseInt (pySlice lg 0 6) ≤ 999999)
    (hg20 : 0 ≤ parseInt (pySlice lg 6 14))
    (hg2 : (i * nr : ℤ) + parseInt (pySlice lg 6 14) ≤ 9999999)
    (hg30 : 0 ≤ parseInt (pySlice lg 14 22))
    (hg3 : (i * nr : ℤ) + parseInt (pySlice lg 14 22) ≤ 9999999) :
    write_assembly a xlink no_mon = some (
      (a.take (ai + 2)).flatten ++
      sectionChunk no_mon (sectionLen a (ai + 2)) (fun j m =>
        assembly_atom_line (sectionLen a (ai + 2)) j m (a.getD (m + ai + 2) [])) ++
      ['\n'] ++ a.getD bi [] ++ a.getD (bi + 1) [] ++
      sectionChunk no_mon (sectionLen a (bi + 2)) (fun j m =>
        assembly_bond_line (sectionLen a (ai + 2)) (a.getD (m + ai + 2) []).length j
          (a.getD (m + bi + 2) [])) ++
      ['\n'] ++ a.getD pri [] ++ a.getD (pri + 1) [] ++
      sectionChunk no_mon (sectionLen a (pri + 2)) (fun j m =>
        assembly_pair_line (sectionLen a (ai + 2)) j (a.getD (m + pri + 2) [])) ++
      ['\n'] ++ a.getD ani [] ++ a.getD (ani + 1) [] ++
      sectionChunk no_mon (sectionLen a (ani + 2)) (fun j m =>
        assembly_angle_line (sectionLen a (ai + 2)) j (a.getD (m + ani + 2) [])) ++
      ['\n'] ++ a.getD dpi [] ++ a.getD (dpi + 2) [] ++
      sectionChunk no_mon (sectionLen a (dpi + 3)) (fun j m =>
        assembly_dih_line (sectionLen a (ai + 2)) j (a.getD (m + dpi + 3) [])) ++
      ['\n'] ++ a.getD dii [] ++ a.getD (dii + 2) [] ++
      sectionChunk no_mon (sectionLen a (dii + 3)) (fun j m =>
        assembly_dih_line (sectionLen a (ai + 2)) j (a.getD (m + dii + 3) [])) ++
      ['\n'] ++ ([] : List Char)) ∧
    parseInt (pySlice (assembly_atom_line nr i k l) 0 5) = ((i * nr + k + 1 : ℕ) : ℤ) ∧
    pySlice (assembly_atom_line nr i k l) 5 30 = formatStr 25 (pySlice l 6 29) ∧
    parseInt (pySlice (assembly_atom_line nr i k l) 30 35) =
      (i * nr : ℤ) + parseInt (pySlice l 29 34) ∧
    pySliceFrom (assembly_atom_line nr i k l) 35 = pySliceFrom l 34 ∧
    parseInt (pySlice (assembly_bond_line nr la i lb) 0 6) =
      (i * nr : ℤ) + parseInt (pySlice lb 0 6) ∧
    parseInt (pySlice (assembly_bond_line nr la i lb) 6 13) =
      (i * nr : ℤ) + parseInt (pySlice lb 6 14) ∧
    pySliceFrom (assembly_bond_line nr la i lb) 13 = pySlice lb 14 la ∧
    parseInt (pySlice (assembly_angle_line nr i lg) 0 6) =
      (i * nr : ℤ) + parseInt (pySlice lg 0 6) ∧
    parseInt (pySlice (assembly_angle_line nr i lg) 6 13) =
      (i * nr : ℤ) + parseInt (pySlice lg 6 14) ∧
    parseInt (pySlice (assembly_angle_line nr i lg) 13 20) =
      (i * nr : ℤ) + parseInt (pySlice lg 14 22) ∧
    pySliceFrom (assembly_angle_line nr i lg) 20 = pySliceFrom lg 22 := by
  have hA1 : (formatInt 5 ((i * nr + k + 1 : ℕ) : ℤ)).length = 5 :=
    formatInt_length 5 _ (intChars_length_le_nonneg _ 5 (by omega) (by omega) (by omega))
  have hA2 : (formatStr 25 (pySlice l 6 29)).length = 25 :=
    padRight_length 25 ' ' _ (le_trans (pySlice_length_le l 6 29) (by omega))
  have hA3 : (formatInt 5 ((i * nr : ℕ) + parseInt (pySlice l 29 34))).length = 5 :=
    formatInt_length 5 _ (intChars_length_le_nonneg _ 5 (by omega) (by omega) (by omega))
  have hB1 : (formatInt 6 ((i * nr : ℕ) + parseInt (pySlice lb 0 6))).length = 6 :=
    formatInt_length 6 _ (intChars_length_le_nonneg _ 6 (by omega) (by omega) (by omega))
  have hB2 : (formatInt 7 ((i * nr : ℕ) + parseInt (pySlice lb 6 14))).length = 7 :=
    formatInt_length 7 _ (intChars_length_le_nonneg _ 7 (by omega) (by omega) (by omega))
  have hG1 : (formatInt 6 ((i * nr : ℕ) + parseInt (pySlice lg 0 6))).length = 6 :=
    formatInt_length 6 _ (intChars_length_le_nonneg _ 6 (by omega) (by omega) (by omega))
  have hG2 : (formatInt 7 ((i * nr : ℕ) + parseInt (pySlice lg 6 14))).length = 7 :=
    formatInt_length 7 _ (intChars_length_le_nonneg _ 7 (by omega) (by omega) (by omega))
  have hG3 : (formatInt 7 ((i * nr : ℕ) + parseInt (pySlice lg 14 22))).length = 7 :=
    formatInt_length 7 _ (intChars_length_le_nonneg _ 7 (by omega) (by omega) (by omega))
  have eA : assembly_atom_line nr i k l =
      formatInt 5 ((i * nr + k + 1 : ℕ) : ℤ) ++ (formatStr 25 (pySlice l 6 29) ++
        (formatInt 5 ((i * nr : ℕ) + parseInt (pySlice l 29 34)) ++ pySliceFrom l 34)) := by
    unfold assembly_atom_line
    simp [List.append_assoc]
  have eB : assembly_bond_line nr la i lb =
      formatInt 6 ((i * nr : ℕ) + parseInt (pySlice lb 0 6)) ++
        (formatInt 7 ((i * nr : ℕ) + parseInt (pySlice lb 6 14)) ++ pySlice lb 14 la) := by
    unfold assembly_bond_line
    simp [List.append_assoc]
  have eG : assembly_angle_line nr i lg =
      formatInt 6 ((i * nr : ℕ) + parseInt (pySlice lg 0 6)) ++
        (formatInt 7 ((i * nr : ℕ) + parseInt (pySlice lg 6 14)) ++
          (formatInt 7 ((i * nr : ℕ) + parseInt (pySlice lg 14 22)) ++ pySliceFrom lg 22)) := by
    unfold assembly_angle_line
    simp [List.append_assoc]
  push_cast at hA1 hA3 hB1 hB2 hG1 hG2 hG3 eA eB eG
  refine ⟨?_, ?_, ?_, ?_, ?_, ?_, ?_, ?_, ?_, ?_, ?_, ?_⟩
  · subst hx
    unfold write_assembly
    rw [ha, hb, hpr, han, hdp, hdi]
    rfl
  · rw [eA, pySlice_exact _ _ 5 hA1, parseInt_formatInt 5 _]
    push_cast
    ring
  · rw [eA, pySlice_skip _ _ 5 5 30 hA1 (by omega)]
    norm_num
    exact pySlice_exact _ _ 25 hA2
  · rw [eA, pySlice_skip _ _ 5 30 35 hA1 (by omega)]
    norm_num
    rw [pySlice_skip _ _ 25 25 30 hA2 (by omega)]
    norm_num
    rw [pySlice_exact _ _ 5 hA3, parseInt_formatInt 5 _]
  · rw [eA]
    unfold pySliceFrom
    rw [drop_append_ge _ _ 35 (by rw [hA1]; omega), hA1]
    norm_num
    rw [drop_append_ge _ _ 30 (by rw [hA2]; omega), hA2]
    norm_num
    rw [drop_append_ge _ _ 5 (by rw [hA3]), hA3]
    norm_num
  · rw [eB, pySlice_exact _ _ 6 hB1, parseInt_formatInt 6 _]
  · rw [eB, pySlice_skip _ _ 6 6 13 hB1 (by omega)]
    norm_num
    rw [pySlice_exact _ _ 7 hB2, parseInt_formatInt 7 _]
  · rw [eB]
    unfold pySliceFrom
    rw [drop_append_ge _ _ 13 (by rw [hB1]; omega), hB1]
    norm_num
    rw [drop_append_ge _ _ 7 (by rw [hB2]), hB2]
    norm_num
  · rw [eG, pySlice_exact _ _ 6 hG1, parseInt_formatInt 6 _]
  · rw [eG, pySlice_skip _ _ 6 6 13 hG1 (by omega)]
    norm_num
    rw [pySlice_exact _ _ 7 hG2, parseInt_formatInt 7 _]
  · rw [eG, pySlice_skip _ _ 6 13 20 hG1 (by omega)]
    norm_num
    rw [pySlice_skip _ _ 7 7 14 hG2 (by omega)]
    norm_num
    rw [pySlice_exact _ _ 7 hG3, parseInt_formatInt 7 _]
  · rw [eG]
    unfold pySliceFrom
    rw [drop_append_ge _ _ 20 (by rw [hG1]; omega), hG1]
    norm_num
    rw [drop_append_ge _ _ 14 (by rw [hG2]; omega), hG2]
    norm_num
    rw [drop_append_ge _ _ 7 (by rw [hG3]), hG3]
    norm_num

theorem C2_assembly_index_shift_witness :
    findSection ["[ atoms ]\n".toList, "\n".toList, "\n".toList,
      "[ bonds ]\n".toList, "\n".toList, "\n".toList,
      "[ pairs ]\n".toList, "\n".toList, "\n".toList,
      "[ angles ]\n".toList, "\n".toList, "\n".toList,
      "[ dihedrals ] ; propers\n".toList, "\n".toList, "\n".toList, "\n".toList,
      "[ dihedrals ] ; impropers\n".toList, "\n".toList, "\n".toList, "\n".toList]
      atomsPat = some 0 ∧
    parseInt (pySlice (assembly_atom_line 4 2 0
      "     1ABCDEFGHIJKLMNOPQRSTUVW    2 rest\n".toList) 30 35) =
      (2 * 4 : ℤ) + parseInt (pySlice
        "     1ABCDEFGHIJKLMNOPQRSTUVW    2 rest\n".toList 29 34) ∧
    pySliceFrom (assembly_bond_line 4 15 2 "     9     10 ; comment\n".toList) 13 =
      pySlice "     9     10 ; comment\n".toList 14 15 := by
  have h := C2_assembly_index_shift
    ["[ atoms ]\n".toList, "\n".toList, "\n".toList,
      "[ bonds ]\n".toList, "\n".toList, "\n".toList,
      "[ pairs ]\n".toList, "\n".toList, "\n".toList,
      "[ angles ]\n".toList, "\n".toList, "\n".toList,
      "[ dihedrals ] ; propers\n".toList, "\n".toList, "\n".toList, "\n".toList,
      "[ dihedrals ] ; impropers\n".toList, "\n".toList, "\n".toList, "\n".toList]
    false 3 0 3 6 9 12 16
    (by decide) (by decide) (by decide) (by decide) (by decide) (by decide) rfl
    4 2 0 15 "     1ABCDEFGHIJKLMNOPQRSTUVW    2 rest\n".toList
    "     9     10 ; comment\n".toList
    "     1      2       3 ;\n".toList
    (by decide) (by decide) (by decide) (by decide) (by decide) (by decide) (by decide)
    (by decide) (by decide) (by decide) (by decide) (by decide) (by decide)
  exact ⟨by decide, h.2.2.2.1, h.2.2.2.2.2.2.2.1⟩

/-- C2 counterexample to the claim as stated: the atoms record emits a SECOND
shifted integer field — the charge-group column `[29:34)` holding 2 in the
template reads back as 10 in copy 2 of a 4-atom monomer — and the bonds
record's remainder is truncated to the matching atoms-line length instead of
being passed through untouched. -/
theorem C2_assembly_index_shift_cex :
    parseInt (pySlice "     1ABCDEFGHIJKLMNOPQRSTUVW    2 rest\n".toList 29 34) = 2 ∧
    parseInt (pySlice (assembly_atom_line 4 2 0
      "     1ABCDEFGHIJKLMNOPQRSTUVW    2 rest\n".toList) 30 35) = 10 ∧
    (10 : ℤ) ≠ 2 ∧
    assembly_bond_line 4 15 0 "     9     10 ; comment\n".toList ≠
      formatInt 6 9 ++ formatInt 7 10 ++
        pySliceFrom "     9     10 ; comment\n".toList 14 := by
  exact ⟨by decide, by decide, by decide, by decide⟩

end LLC
